import Mathlib

/-!
Verification of the command-execution pipeline of the becas-Score bot.

Shallow embedding of the core components described in the specification:
the event bus (src/core/eventBus.js), the approval gate (src/core/bot.js),
the workflow runner (src/workflow/actionHandler.js, WorkflowEngine part),
the LLM response generator with retry/fallback/JSON repair
(src/ai/llmService.js), and the adaptive action resolver
(src/core/dynamicHandler.js).

JavaScript values relevant to the claims are modelled explicitly; machine
integers are Nat/Int (no overflow is reachable in the modelled code paths);
thrown exceptions are modelled with Except / explicit outcome types.
-/

/-! ## EventBus (src/core/eventBus.js) -/

/-- A JavaScript runtime value, as far as the `emit` loop inspects it:
the strict-equality check `result === true` distinguishes the boolean
`true` from every other value (including truthy ones such as `1` or
a non-empty string). -/
inductive JsVal where
  | vbool (b : Bool)
  | vnum (n : Int)
  | vstr (s : String)
  | vnull
  | vundefined
  deriving DecidableEq, Repr

/-- A subscribed listener of the event bus, abstracted to what one `emit`
call observes: the value its callback resolves to (or the exception it
throws), and its `exclusive` option.  Priority ordering is applied at
`addListener` time, so the list handed to `emit` is already sorted;
`emit` itself only walks the list in order. -/
structure BusListener where
  result : Except String JsVal
  exclusive : Bool

/-- Whether a listener's callback resolved to the strict boolean `true`
(the JavaScript check `result === true`). -/
def isTrueResult (l : BusListener) : Bool :=
  match l.result with
  | Except.ok (JsVal.vbool true) => true
  | _ => false

theorem isTrueResult_iff (l : BusListener) :
    isTrueResult l = true ↔ l.result = Except.ok (JsVal.vbool true) := by
  unfold isTrueResult
  cases hr : l.result with
  | ok v =>
    cases v <;> simp_all
    rename_i b
    cases b <;> simp_all
  | error e => simp

/-- The dispatch loop of `EventBus.emit` (eventBus.js lines 89-99):
walks the listeners in order, fixes `handled := true` exactly when a
callback resolves to the strict boolean `true`, breaks after an
`exclusive` listener signalled handled, and swallows (logs) exceptions. -/
def emitLoop : List BusListener → Bool → Bool
  | [], handled => handled
  | l :: rest, handled =>
    match l.result with
    | Except.ok v =>
      if v = JsVal.vbool true then
        if l.exclusive then true else emitLoop rest true
      else emitLoop rest handled
    | Except.error _ => emitLoop rest handled

/-- `EventBus.emit` (eventBus.js lines 81-102).  `none` models a topic
with no entry in the listeners map; the explicit empty-list check of
line 85 is kept. -/
def emit (listeners : Option (List BusListener)) : Bool :=
  match listeners with
  | none => false
  | some ls => if ls.isEmpty then false else emitLoop ls false

/-- The loop returns `true` iff it started handled or some listener
resolved to the strict boolean `true`. -/
theorem emitLoop_eq_any (ls : List BusListener) (h : Bool) :
    emitLoop ls h = (h || ls.any isTrueResult) := by
  induction ls generalizing h with
  | nil => simp [emitLoop]
  | cons l rest ih =>
    cases hr : l.result with
    | ok v =>
      by_cases hv : v = JsVal.vbool true
      · subst hv
        have htrue : isTrueResult l = true := (isTrueResult_iff l).mpr hr
        cases hex : l.exclusive with
        | true =>
          simp [emitLoop, hr, hex, List.any_cons, htrue]
        | false =>
          simp [emitLoop, hr, hex, ih, List.any_cons, htrue]
      · have hfalse : isTrueResult l = false := by
          cases hb : isTrueResult l with
          | false => rfl
          | true =>
            exact absurd (((isTrueResult_iff l).mp hb).symm.trans hr |> Except.ok.inj) fun he => hv he.symm
        simp [emitLoop, hr, if_neg hv, ih, List.any_cons, hfalse]
    | error e =>
      have hfalse : isTrueResult l = false := by
        cases hb : isTrueResult l with
        | false => rfl
        | true => simp [(isTrueResult_iff l).mp hb] at hr
      simp [emitLoop, hr, ih, List.any_cons, hfalse]

/-- Claim C9: for every event and payload, `emit` returns `true` if and
only if at least one subscribed handler returned the exact boolean value
`true`; handlers returning any other truthy value do not count as
handled, and emitting on a topic with no listeners returns `false`. -/
theorem emit_true_iff (listeners : Option (List BusListener)) :
    emit listeners = true ↔
      ∃ ls, listeners = some ls ∧
        ∃ l ∈ ls, l.result = Except.ok (JsVal.vbool true) := by
  cases listeners with
  | none => simp [emit]
  | some ls =>
    cases hls : ls.isEmpty with
    | true =>
      have : ls = [] := List.isEmpty_iff.mp hls
      subst this
      simp [emit]
    | false =>
      simp only [emit, hls, Bool.false_eq_true, if_false]
      rw [emitLoop_eq_any]
      simp only [Bool.false_or, List.any_eq_true]
      constructor
      · rintro ⟨l, hl, ht⟩
        exact ⟨ls, rfl, l, hl, (isTrueResult_iff l).mp ht⟩
      · rintro ⟨ls', hls', l, hl, ht⟩
        cases Option.some.inj hls'
        exact ⟨l, hl, (isTrueResult_iff l).mpr ht⟩

/-! ## ApprovalGate (src/core/bot.js, requestPlanApproval) -/

/-- A reaction arriving at the approval message: the emoji's name, the
reacting user's id, and its arrival time in milliseconds after the
collector started.  The event list is ordered by arrival. -/
structure ReactionEvent where
  emojiName : String
  userId : String
  time : Nat

/-- The reaction filter of `requestPlanApproval` (bot.js lines 131-133):
only the two approval emojis, and only from the original requester
(`user.id === message.author.id`). -/
def approvalFilter (requesterId : String) (r : ReactionEvent) : Bool :=
  (r.emojiName = "✅" || r.emojiName = "❌") && r.userId = requesterId

/-- `awaitReactions` with `max: 1`, `time: 30000`, `errors: ['time']`
(bot.js lines 137-142): the first event passing the filter and arriving
within the window, or none (the collector times out and the `await`
rejects). -/
def collectFirstReaction (requesterId : String) (window : Nat)
    (events : List ReactionEvent) : Option ReactionEvent :=
  events.find? (fun r => approvalFilter requesterId r && r.time ≤ window)

/-- Terminal states of an approval session. -/
inductive ApprovalOutcome where
  | Approved
  | Rejected
  | Expired
  deriving DecidableEq, Repr

/-- `requestPlanApproval` (bot.js lines 112-155): resolves the approval
session from the reaction stream.  The second component records whether
`onApproved` ran, i.e. whether `executeApprovedPlan` (and hence any
Action Executor dispatch for the plan's steps) was invoked at all:
it is invoked only on the `✅` branch (line 148). -/
def requestPlanApproval (requesterId : String)
    (events : List ReactionEvent) : ApprovalOutcome × Bool :=
  match collectFirstReaction requesterId 30000 events with
  | some r =>
    if r.emojiName = "✅" then (ApprovalOutcome.Approved, true)
    else (ApprovalOutcome.Rejected, false)
  | none => (ApprovalOutcome.Expired, false)

/-- Claim C7: for every proposed plan requiring approval, if no
acknowledgement from the original requester arrives within the fixed
30s window, the session ends Expired and no Action Executor call is
made for any step of the plan; and reactions from users other than the
requester are ignored: the outcome is a function of the requester's
own reactions only. -/
theorem approval_expires_without_requester_ack (requesterId : String)
    (events : List ReactionEvent)
    (hnone : ∀ r ∈ events, r.userId = requesterId →
      (r.emojiName = "✅" ∨ r.emojiName = "❌") → ¬ (r.time ≤ 30000)) :
    requestPlanApproval requesterId events = (ApprovalOutcome.Expired, false) ∧
    ∀ evs : List ReactionEvent,
      requestPlanApproval requesterId evs =
        requestPlanApproval requesterId (evs.filter (fun r => r.userId = requesterId)) := by
  constructor
  · have hfind : collectFirstReaction requesterId 30000 events = none := by
      apply List.find?_eq_none.mpr
      intro r hr
      simp only [approvalFilter, Bool.and_eq_true, Bool.or_eq_true, decide_eq_true_eq,
        not_and]
      rintro ⟨hemoji, huser⟩ htime
      exact hnone r hr huser hemoji htime
    simp [requestPlanApproval, hfind]
  · intro evs
    have : collectFirstReaction requesterId 30000 evs =
        collectFirstReaction requesterId 30000 (evs.filter (fun r => r.userId = requesterId)) := by
      unfold collectFirstReaction
      rw [List.find?_filter]
      congr 1
      funext r
      by_cases hu : r.userId = requesterId
      · simp [approvalFilter, hu]
      · simp [approvalFilter, hu]
    unfold requestPlanApproval
    rw [this]

/-- Witness for C7 at a concrete input: a stream holding one late
reaction from the requester and one timely reaction from another user
ends Expired with no executor call. -/
theorem approval_expires_witness :
    requestPlanApproval "u1"
      [⟨"✅", "u2", 5000⟩, ⟨"✅", "u1", 31000⟩] = (ApprovalOutcome.Expired, false) ∧
    ∀ evs : List ReactionEvent,
      requestPlanApproval "u1" evs =
        requestPlanApproval "u1" (evs.filter (fun r => r.userId = "u1")) := by
  exact approval_expires_without_requester_ack "u1" _ (by
    intro r hr
    simp only [List.mem_cons, List.mem_singleton] at hr
    rcases hr with h | h | h
    · subst h; intro hu; exact absurd hu (by decide)
    · subst h; intro _ _ htime; exact absurd htime (by decide)
    · cases h)

/-! ## WorkflowRunner (src/workflow/actionHandler.js, class WorkflowEngine) -/

/-- A plan step as the workflow engine reads it: `id`, `tool`, the
`params.action` field (absent when `params`/`params.action` is missing),
and the `critical` flag. -/
structure WfStep where
  id : String
  tool : String
  action : Option String
  critical : Bool

/-- Outcome of one step dispatch: a settled executor result with its
`success` flag and optional `error` text, or a thrown exception. -/
inductive ExecOutcome where
  | ret (success : Bool) (error : Option String)
  | thrown (msg : String)
  deriving DecidableEq

/-- `_executeStep` (actionHandler.js lines 758-770): throws on a step
without `params.action`, dispatches `discord.request` steps to the
Action Executor (`_executeDiscordRequest` / `callAction`, modelled by
the oracle `exec`), and throws on any other tool. -/
def executeStep (exec : WfStep → ExecOutcome) (step : WfStep) : ExecOutcome :=
  match step.action with
  | none => ExecOutcome.thrown "Invalid step configuration"
  | some _ =>
    if step.tool = "discord.request" then exec step
    else ExecOutcome.thrown ("Unknown tool: " ++ step.tool)

/-- One entry of a workflow's `results` array. -/
structure StepResult where
  stepId : String
  success : Bool
  error : Option String

/-- `_executeSequential` (actionHandler.js lines 681-723): the list of
pushed step results plus the error message of the critical throw that
halted the loop, if any.  Two source behaviours are captured exactly:
a step whose executor result has `success: false` is pushed first
(line 690); if it is critical, the `throw` of line 705 is caught by the
same iteration's catch block, which pushes a second result for the same
step (line 709) before rethrowing.  Since `workflow.results` aliases the
same array (line 700), the workflow record sees the full pushed list. -/
def executeSequential (exec : WfStep → ExecOutcome) :
    List WfStep → List StepResult × Option String
  | [] => ([], none)
  | step :: rest =>
    match executeStep exec step with
    | ExecOutcome.ret succ err =>
      if !succ && step.critical then
        let msg := "Critical step " ++ step.id ++ " failed: " ++ err.getD "undefined"
        ([⟨step.id, succ, err⟩, ⟨step.id, false, some msg⟩], some msg)
      else
        let res := executeSequential exec rest
        (⟨step.id, succ, err⟩ :: res.1, res.2)
    | ExecOutcome.thrown msg =>
      if step.critical then ([⟨step.id, false, some msg⟩], some msg)
      else
        let res := executeSequential exec rest
        (⟨step.id, false, some msg⟩ :: res.1, res.2)

/-- `_executeParallel` (actionHandler.js lines 733-749): every step is
dispatched and settled independently (`Promise.all` over promises that
each carry their own `.catch`), so exactly one result per step is
collected no matter which steps fail. -/
def executeParallel (exec : WfStep → ExecOutcome) (steps : List WfStep) :
    List StepResult :=
  steps.map fun step =>
    match executeStep exec step with
    | ExecOutcome.ret succ err => ⟨step.id, succ, err⟩
    | ExecOutcome.thrown msg => ⟨step.id, false, some msg⟩

inductive WfStatus where
  | running
  | completed
  | failed
  deriving DecidableEq, Repr

/-- The registry entry kept in `activeWorkflows` for one workflow. -/
structure WorkflowRecord where
  id : String
  status : WfStatus
  results : List StepResult

/-- What `executeWorkflow` returns to its caller. -/
structure WfReturn where
  success : Bool
  workflowId : Option String
  error : Option String

/-- A workflow plan as `executeWorkflow` reads it: `steps` is `none`
when the `steps` property is missing or not an array, `strategy` models
`plan.meta?.strategy`. -/
structure WfPlan where
  steps : Option (List WfStep)
  strategy : Option String
  requiresApproval : Bool

/-- `executeWorkflow` (actionHandler.js lines 613-671): validates the
plan, registers a record in `running` state, runs the chosen strategy,
and settles the record to `completed` or `failed`.  The registry is
threaded explicitly; `wfId` stands for the generated
`wf_${Date.now()}_${random}` identifier. -/
def executeWorkflow (exec : WfStep → ExecOutcome) (wfId : String)
    (plan : Option WfPlan) (registry : List (String × WorkflowRecord)) :
    WfReturn × List (String × WorkflowRecord) :=
  match plan with
  | none => (⟨false, none, some "Invalid workflow plan"⟩, registry)
  | some p =>
    match p.steps with
    | none => (⟨false, none, some "Invalid workflow plan"⟩, registry)
    | some steps =>
      let strategy := p.strategy.getD "sequential"
      if strategy = "sequential" then
        let res := executeSequential exec steps
        match res.2 with
        | none =>
          (⟨true, some wfId, none⟩,
            (wfId, ⟨wfId, WfStatus.completed, res.1⟩) :: registry)
        | some msg =>
          (⟨false, some wfId, some msg⟩,
            (wfId, ⟨wfId, WfStatus.failed, res.1⟩) :: registry)
      else if strategy = "parallel" then
        (⟨true, some wfId, none⟩,
          (wfId, ⟨wfId, WfStatus.completed, executeParallel exec steps⟩) :: registry)
      else
        (⟨false, some wfId, some ("Unknown execution strategy: " ++ strategy)⟩,
          (wfId, ⟨wfId, WfStatus.failed, []⟩) :: registry)

/-- A step the sequential loop passes through with one pushed result and
no halt: its dispatch settles with `success: true`. -/
def stepSucceeds (exec : WfStep → ExecOutcome) (t : WfStep) : Prop :=
  ∃ err, executeStep exec t = ExecOutcome.ret true err

/-- Running the sequential loop over a prefix of succeeding steps adds
one result per prefix step and keeps the tail's halt behaviour. -/
theorem executeSequential_append_succ (exec : WfStep → ExecOutcome)
    (pre rest : List WfStep) (hpre : ∀ t ∈ pre, stepSucceeds exec t) :
    (executeSequential exec (pre ++ rest)).1.length =
      pre.length + (executeSequential exec rest).1.length ∧
    (executeSequential exec (pre ++ rest)).2 = (executeSequential exec rest).2 := by
  induction pre with
  | nil => simp
  | cons t pre ih =>
    obtain ⟨err, ht⟩ := hpre t (List.mem_cons_self t pre)
    have ih' := ih fun u hu => hpre u (List.mem_cons_of_mem t hu)
    simp only [List.cons_append, executeSequential, ht]
    simp only [Bool.not_true, Bool.false_and, Bool.false_eq_true, if_false,
      List.length_cons]
    refine ⟨?_, ih'.2⟩
    have hlen := ih'.1
    simp only [List.append_eq]
    omega

/-- Claim C2 (amended): under the sequential strategy, a critical step at
position `k` (= `pre.length + 1`) whose dispatch settles with
`success: false` halts execution with workflow status `failed`, but the
record holds `k + 1` step results: the failing step is recorded twice,
once as its unsuccessful step result and once as the caught
critical-failure error.  The same plan under the parallel strategy
yields one result per step regardless of which steps fail. -/
theorem seq_critical_fail_k_plus_one (exec : WfStep → ExecOutcome)
    (wfId : String) (registry : List (String × WorkflowRecord))
    (pre post : List WfStep) (s : WfStep) (e : Option String) (appr : Bool)
    (hpre : ∀ t ∈ pre, stepSucceeds exec t)
    (hs : executeStep exec s = ExecOutcome.ret false e)
    (hcrit : s.critical = true) :
    (∃ rec : WorkflowRecord,
      (executeWorkflow exec wfId
          (some ⟨some (pre ++ s :: post), some "sequential", appr⟩) registry).2 =
        (wfId, rec) :: registry ∧
      rec.status = WfStatus.failed ∧
      rec.results.length = (pre.length + 1) + 1) ∧
    (executeWorkflow exec wfId
        (some ⟨some (pre ++ s :: post), some "parallel", appr⟩) registry).2 =
      (wfId, ⟨wfId, WfStatus.completed, executeParallel exec (pre ++ s :: post)⟩)
        :: registry ∧
    (executeParallel exec (pre ++ s :: post)).length = (pre ++ s :: post).length := by
  have hseq := executeSequential_append_succ exec pre (s :: post) hpre
  have hhead : executeSequential exec (s :: post) =
      ([⟨s.id, false, e⟩,
        ⟨s.id, false, some ("Critical step " ++ s.id ++ " failed: " ++ e.getD "undefined")⟩],
       some ("Critical step " ++ s.id ++ " failed: " ++ e.getD "undefined")) := by
    simp [executeSequential, hs, hcrit]
  rcases hE : executeSequential exec (pre ++ s :: post) with ⟨results, halted⟩
  rw [hE, hhead] at hseq
  have hhalted : halted = some ("Critical step " ++ s.id ++ " failed: " ++ e.getD "undefined") :=
    hseq.2
  have hlen : results.length = pre.length + 2 := by
    have := hseq.1
    simpa using this
  subst hhalted
  refine ⟨⟨⟨wfId, WfStatus.failed, results⟩, ?_, rfl, hlen⟩, ?_, ?_⟩
  · simp [executeWorkflow, hE]
  · simp [executeWorkflow]
  · simp [executeParallel]

/-- Claim C2, original form, refuted at a concrete input: a sequential
plan whose single step (position `k = 1`) is critical and fails with an
executor-reported error yields a `failed` workflow whose record holds 2
step results, not `k = 1`. -/
theorem seq_critical_fail_counterexample :
    ((executeWorkflow (fun _ => ExecOutcome.ret false (some "boom")) "wf"
        (some ⟨some [⟨"s1", "discord.request", some "member.ban", true⟩],
               some "sequential", true⟩) []).2.map
      (fun entry => (entry.1, entry.2.status, entry.2.results.length)))
      = [("wf", WfStatus.failed, 2)] ∧ (2 : Nat) ≠ 1 := by
  constructor
  · rfl
  · decide

/-- Claim C10: a `null` plan or a plan without a `steps` array makes
`executeWorkflow` return a failure carrying `'Invalid workflow plan'`
before any workflow id is generated, and the registry is untouched. -/
theorem executeWorkflow_invalid_plan (exec : WfStep → ExecOutcome)
    (wfId : String) (registry : List (String × WorkflowRecord))
    (plan : Option WfPlan)
    (h : plan = none ∨ ∃ p, plan = some p ∧ p.steps = none) :
    executeWorkflow exec wfId plan registry =
      (⟨false, none, some "Invalid workflow plan"⟩, registry) := by
  rcases h with h | ⟨p, hp, hsteps⟩
  · subst h; rfl
  · subst hp
    simp only [executeWorkflow, hsteps]

/-- Witness for C10: the `null` plan and a plan whose `steps` property is
missing both return the invalid-plan failure and leave a one-entry
registry unchanged. -/
theorem executeWorkflow_invalid_plan_witness :
    executeWorkflow (fun _ => ExecOutcome.ret true none) "wf_9" none
        [("wf_1", ⟨"wf_1", WfStatus.completed, []⟩)] =
      (⟨false, none, some "Invalid workflow plan"⟩,
        [("wf_1", ⟨"wf_1", WfStatus.completed, []⟩)]) ∧
    executeWorkflow (fun _ => ExecOutcome.ret true none) "wf_9"
        (some ⟨none, some "sequential", false⟩)
        [("wf_1", ⟨"wf_1", WfStatus.completed, []⟩)] =
      (⟨false, none, some "Invalid workflow plan"⟩,
        [("wf_1", ⟨"wf_1", WfStatus.completed, []⟩)]) := by
  constructor
  · exact executeWorkflow_invalid_plan _ _ _ _ (Or.inl rfl)
  · exact executeWorkflow_invalid_plan _ _ _ _ (Or.inr ⟨_, rfl, rfl⟩)

/-! ## Self-healing JSON repair (src/ai/llmService.js, _fixJsonFormat)

Strings are processed as `List Char`.  Curly braces are written via
`Char.ofNat` (123 / 125).  Each regex of the source is modelled by a
single left-to-right scan that, like a JavaScript global `replace`,
resumes after the end of a match and never rescans replacement text. -/

def lbrace : Char := Char.ofNat 123

def rbrace : Char := Char.ofNat 125

def squote : Char := Char.ofNat 39

/-- JavaScript `\s` restricted to the ASCII whitespace characters
(space, tab, newline, carriage return, vertical tab, form feed); the
Unicode whitespace also matched by `\s` does not occur in the texts the
repair chain handles. -/
def jsSpace (c : Char) : Bool :=
  c = ' ' || c = '\t' || c = '\n' || c = '\r' || c = Char.ofNat 11 || c = Char.ofNat 12

/-- JavaScript `\w`: ASCII letters, digits and underscore. -/
def jsWordChar (c : Char) : Bool :=
  c.isAlphanum || c = '_'

/-- `String.prototype.includes` on character lists. -/
def containsSeq (pat : List Char) : List Char → Bool
  | [] => decide (pat = [])
  | c :: cs => pat.isPrefixOf (c :: cs) || containsSeq pat cs

/-- One global-regex pass: `step l` returns the replacement text and the
number of characters the match consumed (≥ 1 is enforced), scanning
resumes after the consumed characters; on no match the scan advances one
character.  The fuel argument only makes the recursion structural: every
step consumes at least one character, so with fuel = length the zero
case is reached only on the empty list. -/
def scanRewriteFuel (step : List Char → Option (List Char × Nat)) :
    Nat → List Char → List Char
  | 0, l => l
  | _ + 1, [] => []
  | f + 1, c :: cs =>
    match step (c :: cs) with
    | some (out, k) => out ++ scanRewriteFuel step f ((c :: cs).drop (max k 1))
    | none => c :: scanRewriteFuel step f cs

def scanRewrite (step : List Char → Option (List Char × Nat)) (l : List Char) :
    List Char :=
  scanRewriteFuel step l.length l

/-- Matcher for ``/```json\s*/`` and ``/```\s*/`` (lines 258-259): the
literal marker followed by greedy whitespace, replaced by nothing. -/
def fenceStep (marker : List Char) (l : List Char) : Option (List Char × Nat) :=
  if marker.isPrefixOf l then
    some ([], marker.length + ((l.drop marker.length).takeWhile jsSpace).length)
  else none

/-- `indexOf` of a character. -/
def firstIndexOf (c : Char) (l : List Char) : Option Nat :=
  l.findIdx? (· = c)

/-- `lastIndexOf` of a character. -/
def lastIndexOf (c : Char) (l : List Char) : Option Nat :=
  match l.reverse.findIdx? (· = c) with
  | some j => some (l.length - 1 - j)
  | none => none

/-- Lines 262-267: slice to the substring from the first uppercase-open
brace to the last close brace, kept only when both exist and the close
comes strictly after the open. -/
def sliceToBraces (l : List Char) : List Char :=
  match firstIndexOf lbrace l, lastIndexOf rbrace l with
  | some i, some j => if i < j then (l.drop i).take (j - i + 1) else l
  | _, _ => l

/-- Line 270: every single quote becomes a double quote. -/
def quoteNormalize (l : List Char) : List Char :=
  l.map fun c => if c = squote then '"' else c

/-- `/,(\s*[}\]])/g → '$1'` (line 271): a comma directly before
(whitespace then) a closing brace or bracket is dropped. -/
def trailingCommaStep (l : List Char) : Option (List Char × Nat) :=
  match l with
  | c :: cs =>
    if c = ',' then
      let ws := cs.takeWhile jsSpace
      match cs.drop ws.length with
      | b :: _ => if b = rbrace || b = ']' then some (ws ++ [b], 1 + ws.length + 1) else none
      | [] => none
    else none
  | [] => none

/-- `/(\w+):/g` with the quoting callback (lines 274-278): a maximal
word-character run directly followed by `:` is wrapped in double quotes.
The callback's `startsWith('"') / endsWith('"')` guards can never hold
for a `\w+` capture and are dead. -/
def quoteKeysStep (l : List Char) : Option (List Char × Nat) :=
  let run := l.takeWhile jsWordChar
  if run.isEmpty then none
  else
    match l.drop run.length with
    | ':' :: _ => some ('"' :: run ++ '"' :: [':'], run.length + 1)
    | _ => none

/-- Shared matcher for the missing-comma regexes of lines 281-289:
character `a`, whitespace, character `b`, replaced by `out`. -/
def sepStep (a b : Char) (out : List Char) (l : List Char) : Option (List Char × Nat) :=
  match l with
  | c :: cs =>
    if c = a then
      let ws := cs.takeWhile jsSpace
      match cs.drop ws.length with
      | d :: _ => if d = b then some (out, 1 + ws.length + 1) else none
      | [] => none
    else none
  | [] => none

/-- `String.prototype.trim` (ASCII whitespace). -/
def jsTrim (l : List Char) : List Char :=
  ((l.dropWhile jsSpace).reverse.dropWhile jsSpace).reverse

def lastIs (l : List Char) (c : Char) : Bool :=
  l.getLast? = some c

def headIs (l : List Char) (c : Char) : Bool :=
  l.head? = some c

/-- The per-pair body of the line loop (lines 293-311).  `lines[i]` is
replaced by its trimmed text plus a comma when either condition fires
(the second `if` re-assigns the same value when both fire, because it
reads the unmodified `line` constant); otherwise the original line is
kept.  `lines[i+1]` is read before the next iteration can touch it, so
the loop acts on independent pairs. -/
def fixLinePair (cur next : List Char) : List Char :=
  let line := jsTrim cur
  let nextLine := jsTrim next
  let cond1 := line.contains ':' && nextLine.contains ':' &&
    !(lastIs line ',') && !(lastIs line lbrace) && !(lastIs line '[')
  let cond2 := (lastIs line rbrace || lastIs line '"' || lastIs line squote) &&
    (headIs nextLine lbrace || headIs nextLine '"' || headIs nextLine squote) &&
    !(lastIs line ',')
  if cond1 || cond2 then line ++ [','] else cur

def fixLines : List (List Char) → List (List Char)
  | [] => []
  | [l] => [l]
  | cur :: next :: rest => fixLinePair cur next :: fixLines (next :: rest)

/-- Lines 292-312: split on newlines, insert the missing commas, join. -/
def lineCommaFix (l : List Char) : List Char :=
  List.intercalate ['\n'] (fixLines (l.splitOn '\n'))

/-- Lines 315-325: append the missing closing braces, then the missing
closing brackets (the appended braces contain no brackets, so counting
on the updated text equals counting on the input). -/
def balanceClosers (l : List Char) : List Char :=
  let l1 := l ++ List.replicate (l.count lbrace - l.count rbrace) rbrace
  l1 ++ List.replicate (l1.count '[' - l1.count ']') ']'

/-- Stages of `_fixJsonFormat` up to (excluding) the final parse check:
fence stripping, brace slicing, quote normalization, trailing-comma
removal, key quoting, the five missing-comma passes, the line-based
comma insertion and the bracket balancing (lines 255-325). -/
def fixJsonCore (content : List Char) : List Char :=
  let s1 := scanRewrite (fenceStep "```json".data) content
  let s2 := scanRewrite (fenceStep "```".data) s1
  let s3 := sliceToBraces s2
  let s4 := quoteNormalize s3
  let s5 := scanRewrite trailingCommaStep s4
  let s6 := scanRewrite quoteKeysStep s5
  let s7 := scanRewrite (sepStep rbrace lbrace [rbrace, ',', '\n', lbrace]) s6
  let s8 := scanRewrite (sepStep rbrace '"' [rbrace, ',', '\n', '"']) s7
  let s9 := scanRewrite (sepStep '"' lbrace ['"', ',', '\n', lbrace]) s8
  let s10 := scanRewrite (sepStep rbrace lbrace [rbrace, ',', '\n', lbrace]) s9
  let s11 := scanRewrite (sepStep rbrace lbrace [rbrace, ',', '\n', lbrace]) s10
  let s12 := lineCommaFix s11
  balanceClosers s12

/-! ## JSON.parse validity model

A fueled recogniser for the JSON grammar accepted by `JSON.parse`
(values, objects, arrays, strings with escapes, numbers, literals,
ASCII whitespace).  Fuel strictly decreases on every call; the top-level
entry supplies more fuel than the grammar can consume on its input. -/

def jsonWs (c : Char) : Bool :=
  c = ' ' || c = '\t' || c = '\n' || c = '\r'

def skipWs (l : List Char) : List Char :=
  l.dropWhile jsonWs

def isHexDigit (c : Char) : Bool :=
  c.isDigit || ('a' ≤ c && c ≤ 'f') || ('A' ≤ c && c ≤ 'F')

/-- Recognise the remainder of a JSON string after the opening quote. -/
def parseStringBody : Nat → List Char → Option (List Char)
  | 0, _ => none
  | _ + 1, [] => none
  | f + 1, c :: rest =>
    if c = '"' then some rest
    else if c = '\\' then
      match rest with
      | [] => none
      | e :: rest' =>
        if e = '"' || e = '\\' || e = '/' || e = 'b' || e = 'f' ||
            e = 'n' || e = 'r' || e = 't' then parseStringBody f rest'
        else if e = 'u' then
          match rest' with
          | a :: b :: c' :: d :: rest'' =>
            if isHexDigit a && isHexDigit b && isHexDigit c' && isHexDigit d then
              parseStringBody f rest''
            else none
          | _ => none
        else none
    else if c.toNat < 32 then none
    else parseStringBody f rest

/-- Optional fraction part. -/
def parseFrac (l : List Char) : Option (List Char) :=
  match l with
  | '.' :: r =>
    let ds := r.takeWhile Char.isDigit
    if ds.isEmpty then none else some (r.drop ds.length)
  | _ => some l

/-- Optional exponent part. -/
def parseExp (l : List Char) : Option (List Char) :=
  match l with
  | e :: r =>
    if e = 'e' || e = 'E' then
      let r1 := match r with
        | s :: r' => if s = '+' || s = '-' then r' else s :: r'
        | [] => r
      let ds := r1.takeWhile Char.isDigit
      if ds.isEmpty then none else some (r1.drop ds.length)
    else some (e :: r)
  | [] => some []

/-- JSON number: `-? (0 | [1-9][0-9]*) frac? exp?`. -/
def parseNumber (l : List Char) : Option (List Char) :=
  let l1 := match l with
    | c :: r => if c = '-' then r else c :: r
    | [] => []
  match l1 with
  | c :: r =>
    if c = '0' then parseFrac r >>= parseExp
    else if c.isDigit then
      let ds := r.takeWhile Char.isDigit
      parseFrac (r.drop ds.length) >>= parseExp
    else none
  | [] => none

mutual

def parseValue : Nat → List Char → Option (List Char)
  | 0, _ => none
  | f + 1, l =>
    match skipWs l with
    | [] => none
    | c :: rest =>
      if c = '"' then parseStringBody f rest
      else if c = lbrace then parseObject f rest
      else if c = '[' then parseArray f rest
      else if c = 't' then
        if "rue".data.isPrefixOf rest then some (rest.drop 3) else none
      else if c = 'f' then
        if "alse".data.isPrefixOf rest then some (rest.drop 4) else none
      else if c = 'n' then
        if "ull".data.isPrefixOf rest then some (rest.drop 3) else none
      else parseNumber (c :: rest)

def parseObject : Nat → List Char → Option (List Char)
  | 0, _ => none
  | f + 1, l =>
    match skipWs l with
    | [] => none
    | c :: rest =>
      if c = rbrace then some rest
      else if c = '"' then
        parseStringBody f rest >>= fun r1 =>
          match skipWs r1 with
          | ':' :: r2 => parseValue f r2 >>= fun r3 => parseMembersRest f r3
          | _ => none
      else none

def parseMembersRest : Nat → List Char → Option (List Char)
  | 0, _ => none
  | f + 1, l =>
    match skipWs l with
    | [] => none
    | c :: rest =>
      if c = ',' then
        match skipWs rest with
        | '"' :: r1 =>
          parseStringBody f r1 >>= fun r2 =>
            match skipWs r2 with
            | ':' :: r3 => parseValue f r3 >>= fun r4 => parseMembersRest f r4
            | _ => none
        | _ => none
      else if c = rbrace then some rest
      else none

def parseArray : Nat → List Char → Option (List Char)
  | 0, _ => none
  | f + 1, l =>
    match skipWs l with
    | [] => none
    | c :: rest =>
      if c = ']' then some rest
      else parseValue f (c :: rest) >>= fun r1 => parseElemsRest f r1

def parseElemsRest : Nat → List Char → Option (List Char)
  | 0, _ => none
  | f + 1, l =>
    match skipWs l with
    | [] => none
    | c :: rest =>
      if c = ',' then parseValue f rest >>= fun r1 => parseElemsRest f r1
      else if c = ']' then some rest
      else none

end

/-- `JSON.parse(text)` succeeds: a single value with only trailing
whitespace. -/
def parseJsonChars (l : List Char) : Bool :=
  match parseValue (4 * l.length + 16) l with
  | some rest => (skipWs rest).isEmpty
  | none => false

/-- The last-resort `"steps"` repair attempted when the repaired text
still does not parse (lines 335-340): rewrite the first
`"steps" ws* :` into `"steps": [`, then, unless the updated text
contains `"steps": []` or `]` followed by a closing brace, replace the
final `}` (first `/}\s*$/` match) by `]}`. -/
def replaceFirstStepsColon : List Char → List Char
  | [] => []
  | c :: cs =>
    let hd := c :: cs
    if "\"steps\"".data.isPrefixOf hd then
      let r := hd.drop 7
      let ws := r.takeWhile jsSpace
      match r.drop ws.length with
      | ':' :: r2 => "\"steps\": [".data ++ r2
      | _ => c :: replaceFirstStepsColon cs
    else c :: replaceFirstStepsColon cs

/-- `/}\s*$/ → ']}'` (non-global, line 338): when the text ends in a
close brace followed only by whitespace, that brace and the whitespace
become `]}`. -/
def closeWithBracket (l : List Char) : List Char :=
  let stripped := (l.reverse.dropWhile jsSpace).reverse
  if lastIs stripped rbrace then stripped.dropLast ++ (']' :: [rbrace]) else l

def stepsHeuristicChars (l : List Char) : List Char :=
  if containsSeq "\"steps\"".data l && !(containsSeq "\"steps\": [".data l) &&
      !(containsSeq "\"steps\":[]".data l) then
    let l2 := replaceFirstStepsColon l
    if !(containsSeq "\"steps\": []".data l2) && !(containsSeq (']' :: [rbrace]) l2) then
      closeWithBracket l2
    else l2
  else l

/-- `_fixJsonFormat` (llmService.js lines 252-348): the repair chain,
then the final parse check; on parse failure the `"steps"` heuristic is
applied and the (still possibly unparseable) repaired text is returned.
The surrounding `try/catch` returns the original text only when the
repair chain itself throws, which the modelled string operations never
do. -/
def fixJsonFormat (content : String) : String :=
  let j := fixJsonCore content.data
  let j2 := if parseJsonChars j then j else stepsHeuristicChars j
  String.mk j2

/-- Claim C3, original form, refuted at a concrete input: for the text
`{a: }` the repaired text `{"a": }` still fails to parse, yet the repair
function returns it — not the original text unmodified. -/
theorem fixJson_unparseable_not_original :
    fixJsonFormat "\x7ba: \x7d" ≠ "\x7ba: \x7d" ∧
    parseJsonChars (fixJsonFormat "\x7ba: \x7d").data = false := by
  constructor
  · decide
  · decide

/-- Claim C3 (amended): for every input text whose repaired form still
fails to parse, `_fixJsonFormat` returns the repaired text after the
last-resort `"steps"` heuristic — the original text is not restored on
re-parse failure (it is returned only when the repair chain itself
throws, which the string operations never do). -/
theorem fixJson_parse_fail_keeps_repaired (content : String)
    (h : parseJsonChars (fixJsonCore content.data) = false) :
    fixJsonFormat content = String.mk (stepsHeuristicChars (fixJsonCore content.data)) := by
  unfold fixJsonFormat
  simp [h]

/-- Witness for the amended C3 at the concrete input `{a: }`. -/
theorem fixJson_parse_fail_witness :
    parseJsonChars (fixJsonCore ("\x7ba: \x7d").data) = false ∧
    fixJsonFormat "\x7ba: \x7d" =
      String.mk (stepsHeuristicChars (fixJsonCore ("\x7ba: \x7d").data)) :=
  ⟨by decide, fixJson_parse_fail_keeps_repaired "\x7ba: \x7d" (by decide)⟩

/-! ## Fallback plan synthesizer (src/ai/llmService.js, _generateFallbackResponse)

The source builds the plan object and returns `JSON.stringify` of it;
the model returns the plan structure itself (the serialization is
injective on these plans and nothing downstream of the claims depends
on it).  `Char.toLower` lowers ASCII letters only; the claims' inputs
are ASCII. -/

def chToStr (l : List Char) : String :=
  String.mk l

def isQuoteCh (c : Char) : Bool :=
  c = '"' || c = squote

/-- `/["']([^"']+)["']/`: the first quote character followed by one or
more non-quote characters and another quote character. -/
def firstQuoted : List Char → Option (List Char)
  | [] => none
  | c :: cs =>
    if isQuoteCh c then
      let run := cs.takeWhile (fun d => !isQuoteCh d)
      if !run.isEmpty && !(cs.drop run.length).isEmpty then some run
      else firstQuoted cs
    else firstQuoted cs

/-- `/<@!?(\d+)>/`: the first user mention, returning the digit group. -/
def firstMention : List Char → Option (List Char)
  | [] => none
  | c :: cs =>
    let hd := c :: cs
    if "<@".data.isPrefixOf hd then
      let r := hd.drop 2
      let r1 := match r with
        | '!' :: r' => r'
        | other => other
      let ds := r1.takeWhile Char.isDigit
      if !ds.isEmpty && headIs (r1.drop ds.length) '>' then some ds
      else firstMention cs
    else firstMention cs

/-- `/<@&(\d+)>/`: the first role mention. -/
def firstRoleMention : List Char → Option (List Char)
  | [] => none
  | c :: cs =>
    let hd := c :: cs
    if "<@&".data.isPrefixOf hd then
      let r := hd.drop 3
      let ds := r.takeWhile Char.isDigit
      if !ds.isEmpty && headIs (r.drop ds.length) '>' then some ds
      else firstRoleMention cs
    else firstRoleMention cs

/-- `/<#(\d+)>/`: the first channel mention. -/
def firstChannelMention : List Char → Option (List Char)
  | [] => none
  | c :: cs =>
    let hd := c :: cs
    if "<#".data.isPrefixOf hd then
      let r := hd.drop 2
      let ds := r.takeWhile Char.isDigit
      if !ds.isEmpty && headIs (r.drop ds.length) '>' then some ds
      else firstChannelMention cs
    else firstChannelMention cs

/-- Case-insensitive literal prefix test (`pat` is given lowercase). -/
def ciHasPrefix (pat : List Char) (l : List Char) : Bool :=
  decide ((l.take pat.length).map Char.toLower = pat)

/-- `/(\d+)\s*(?:w1|w2|...)/i`: the first digit run followed by optional
whitespace and one of the literal words; returns the digit group. -/
def numberThenWords (words : List (List Char)) : List Char → Option (List Char)
  | [] => none
  | c :: cs =>
    let ds := (c :: cs).takeWhile Char.isDigit
    if !ds.isEmpty then
      let r1 := ((c :: cs).drop ds.length).dropWhile jsSpace
      if words.any (fun w => ciHasPrefix w r1) then some ds
      else numberThenWords words cs
    else numberThenWords words cs

/-- `/word[: ]+"([^"]+)"/i`: the word, one or more `:`/space characters,
then a double-quoted group. -/
def wordSepQuoted (word : List Char) : List Char → Option (List Char)
  | [] => none
  | c :: cs =>
    let hd := c :: cs
    if ciHasPrefix word hd then
      let r := hd.drop word.length
      let seps := r.takeWhile (fun d => d = ':' || d = ' ')
      if !seps.isEmpty then
        match r.drop seps.length with
        | '"' :: r2 =>
          let run := r2.takeWhile (· ≠ '"')
          if !run.isEmpty && !(r2.drop run.length).isEmpty then some run
          else wordSepQuoted word cs
        | _ => wordSepQuoted word cs
      else wordSepQuoted word cs
    else wordSepQuoted word cs

/-- `/word[: ]+(\d+)/i`: the word, one or more `:`/space characters,
then a digit group. -/
def wordSepDigits (word : List Char) : List Char → Option (List Char)
  | [] => none
  | c :: cs =>
    let hd := c :: cs
    if ciHasPrefix word hd then
      let r := hd.drop word.length
      let seps := r.takeWhile (fun d => d = ':' || d = ' ')
      if !seps.isEmpty then
        let ds := (r.drop seps.length).takeWhile Char.isDigit
        if !ds.isEmpty then some ds else wordSepDigits word cs
      else wordSepDigits word cs
    else wordSepDigits word cs

/-- `/to\s+(\S+)/i` (nickname handler): `to`, whitespace, then a run of
non-whitespace characters. -/
def toTokenExtract : List Char → Option (List Char)
  | [] => none
  | c :: cs =>
    let hd := c :: cs
    if ciHasPrefix "to".data hd then
      let r := hd.drop 2
      let sps := r.takeWhile jsSpace
      if !sps.isEmpty then
        let tok := (r.drop sps.length).takeWhile (fun d => !jsSpace d)
        if !tok.isEmpty then some tok else toTokenExtract cs
      else toTokenExtract cs
    else toTokenExtract cs

/-- `/\b(w1|w2|...)\b/i`: one of the words with word boundaries on both
sides.  `prev` is the character before the scan position. -/
def hasWordCIAux (words : List (List Char)) (prev : Option Char) :
    List Char → Bool
  | [] => false
  | c :: cs =>
    let hd := c :: cs
    let boundaryBefore := match prev with
      | some p => !jsWordChar p
      | none => true
    if boundaryBefore && words.any (fun w =>
        ciHasPrefix w hd &&
          (match hd.drop w.length with
           | [] => true
           | d :: _ => !jsWordChar d)) then true
    else hasWordCIAux words (some c) cs

def hasWordCI (words : List (List Char)) (l : List Char) : Bool :=
  hasWordCIAux words none l

def digitsToNat (ds : List Char) : Nat :=
  ds.foldl (fun n c => n * 10 + (c.toNat - 48)) 0

/-- One step of a synthesized fallback plan. -/
structure FbStep where
  tool : String
  action : String
  content : Option String
  params : List (String × JsVal)
  id : String

/-- A synthesized fallback plan (`steps`, `meta.strategy`,
`requiresApproval`). -/
structure FbPlan where
  steps : List FbStep
  strategy : String
  requiresApproval : Bool

/-- The duration formatter of llmService.js lines 933-938. -/
def formatDuration (seconds : Nat) : String :=
  if seconds < 60 then toString seconds ++ " saniye"
  else if seconds < 3600 then toString (seconds / 60) ++ " dakika"
  else if seconds < 86400 then toString (seconds / 3600) ++ " saat"
  else toString (seconds / 86400) ++ " gün"

/-- `_processWriteCommand` (lines 515-567). -/
def processWriteCommand (userPrompt : String) : FbPlan :=
  let p := userPrompt.data
  let content := (firstQuoted p).getD "Merhaba!".data
  let rpt := match numberThenWords ["times".data, "kez".data, "defa".data] p with
    | some ds => min (digitsToNat ds) 5
    | none => 1
  let mention := match firstMention p with
    | some ds => "<@".data ++ ds ++ "> ".data
    | none => []
  let lower := p.map Char.toLower
  let shouldNumber := containsSeq "number".data lower ||
    containsSeq "numara".data lower || containsSeq "sayı".data lower
  let isIncrementing := containsSeq "increment".data lower
  let steps := (List.range rpt).map fun i =>
    let numbered :=
      if shouldNumber || isIncrementing then
        if isIncrementing then mention ++ content ++ (' ' :: (toString (i + 1)).data)
        else (toString (i + 1)).data ++ ('.' :: ' ' :: (mention ++ content))
      else mention ++ content
    ({ tool := "discord.request", action := "message.create",
       content := some (chToStr numbered), params := [],
       id := "s" ++ toString (i + 1) } : FbStep)
  { steps := steps, strategy := "sequential", requiresApproval := false }

/-- `_processRepeatCommand` (lines 476-507). -/
def processRepeatCommand (userPrompt : String) : FbPlan :=
  let p := userPrompt.data
  let message := (firstQuoted p).getD "Repeat message".data
  let count := match numberThenWords ["times".data, "kez".data] p with
    | some ds => min (digitsToNat ds) 10
    | none => 3
  let shouldNumber := containsSeq "number".data (p.map Char.toLower) ||
    containsSeq "numara".data (p.map Char.toLower) ||
    containsSeq "sayı".data (p.map Char.toLower)
  let steps := (List.range count).map fun i =>
    ({ tool := "discord.request", action := "message.create",
       content := some (if shouldNumber
         then toString (i + 1) ++ ". " ++ chToStr message
         else chToStr message),
       params := [], id := "s" ++ toString (i + 1) } : FbStep)
  { steps := steps, strategy := "sequential", requiresApproval := false }

/-- `_processTimeoutCommand` (lines 575-619). -/
def processTimeoutCommand (userPrompt : String) : FbPlan :=
  let p := userPrompt.data
  let userId := ((firstMention p).map chToStr).getD "USER_ID_REQUIRED"
  let d0 : Nat := 300
  let d1 := match numberThenWords ["minute".data, "dakika".data, "min".data, "dk".data] p with
    | some ds => digitsToNat ds * 60
    | none => d0
  let d2 := match numberThenWords ["hour".data, "saat".data, "h".data] p with
    | some ds => digitsToNat ds * 3600
    | none => d1
  let duration := match numberThenWords ["day".data, "gün".data, "d".data] p with
    | some ds => digitsToNat ds * 86400
    | none => d2
  let reason := ((wordSepQuoted "reason".data p).map chToStr).getD
    "Requested through bot command"
  { steps := [
      { tool := "discord.request", action := "member.timeout", content := none,
        params := [("userId", JsVal.vstr userId), ("duration", JsVal.vnum (Int.ofNat duration)),
                   ("reason", JsVal.vstr reason)], id := "s1" },
      { tool := "discord.request", action := "message.create",
        content := some ("✅ Kullanıcı <@" ++ userId ++ "> " ++ formatDuration duration ++
          " süreyle susturuldu."),
        params := [], id := "s2" }],
    strategy := "sequential", requiresApproval := false }

/-- `_processPurgeCommand` (lines 627-662). -/
def processPurgeCommand (userPrompt : String) : FbPlan :=
  let p := userPrompt.data
  let count := match numberThenWords ["message".data, "mesaj".data, "msg".data] p with
    | some ds => min (digitsToNat ds) 100
    | none => 10
  let userId? := (firstMention p).map chToStr
  { steps := [
      { tool := "discord.request", action := "channel.purge", content := none,
        params := ("limit", JsVal.vnum (Int.ofNat count)) ::
          (match userId? with
           | some u => [("userId", JsVal.vstr u)]
           | none => []), id := "s1" },
      { tool := "discord.request", action := "message.create",
        content := some (match userId? with
          | some u => "✅ " ++ toString count ++ " mesaj <@" ++ u ++
              "> kullanıcısından temizlendi."
          | none => "✅ " ++ toString count ++ " mesaj temizlendi."),
        params := [], id := "s2" }],
    strategy := "sequential", requiresApproval := false }

/-- `_processBanCommand` (lines 670-709). -/
def processBanCommand (userPrompt : String) : FbPlan :=
  let p := userPrompt.data
  let userId := ((firstMention p).map chToStr).getD "USER_ID_REQUIRED"
  let reason := ((wordSepQuoted "reason".data p).map chToStr).getD
    "Banned through bot command"
  let deleteMessageDays := match wordSepDigits "delete".data p with
    | some ds => min (digitsToNat ds) 7
    | none => 0
  { steps := [
      { tool := "discord.request", action := "member.ban", content := none,
        params := [("userId", JsVal.vstr userId), ("reason", JsVal.vstr reason),
                   ("deleteMessageDays", JsVal.vnum (Int.ofNat deleteMessageDays))], id := "s1" },
      { tool := "discord.request", action := "message.create",
        content := some ("✅ Kullanıcı <@" ++ userId ++ "> sunucudan yasaklandı."),
        params := [], id := "s2" }],
    strategy := "sequential", requiresApproval := true }

/-- `_processKickCommand` (lines 717-750). -/
def processKickCommand (userPrompt : String) : FbPlan :=
  let p := userPrompt.data
  let userId := ((firstMention p).map chToStr).getD "USER_ID_REQUIRED"
  let reason := ((wordSepQuoted "reason".data p).map chToStr).getD
    "Kicked through bot command"
  { steps := [
      { tool := "discord.request", action := "member.kick", content := none,
        params := [("userId", JsVal.vstr userId), ("reason", JsVal.vstr reason)],
        id := "s1" },
      { tool := "discord.request", action := "message.create",
        content := some ("✅ Kullanıcı <@" ++ userId ++ "> sunucudan atıldı."),
        params := [], id := "s2" }],
    strategy := "sequential", requiresApproval := true }

/-- `_processRoleCommand` (lines 758-804). -/
def processRoleCommand (userPrompt : String) : FbPlan :=
  let p := userPrompt.data
  let isAdd := hasWordCI ["add".data, "ver".data, "ekle".data] p
  let action := if isAdd then "role.add" else "role.remove"
  let userId := ((firstMention p).map chToStr).getD "USER_ID_REQUIRED"
  let roleId? := (firstRoleMention p).map chToStr
  let roleName := match roleId? with
    | some _ => "RoleName"
    | none => ((wordSepQuoted "role".data p).map chToStr).getD "RoleName"
  let roleText := match roleId? with
    | some rid => "<@&" ++ rid ++ ">"
    | none => "\"" ++ roleName ++ "\""
  { steps := [
      { tool := "discord.request", action := action, content := none,
        params := ("userId", JsVal.vstr userId) ::
          (match roleId? with
           | some rid => [("roleId", JsVal.vstr rid)]
           | none => [("roleName", JsVal.vstr roleName)]), id := "s1" },
      { tool := "discord.request", action := "message.create",
        content := some (if isAdd
          then "✅ <@" ++ userId ++ "> kullanıcısına " ++ roleText ++ " rolü verildi."
          else "✅ <@" ++ userId ++ "> kullanıcısından " ++ roleText ++ " rolü alındı."),
        params := [], id := "s2" }],
    strategy := "sequential", requiresApproval := false }

/-- `_processChannelCommand` (lines 812-904). -/
def processChannelCommand (userPrompt : String) : FbPlan :=
  let p := userPrompt.data
  let isCreate := hasWordCI ["create".data, "oluştur".data, "add".data, "ekle".data] p
  let isDelete := hasWordCI ["delete".data, "sil".data, "remove".data, "kaldır".data] p
  let isPurge := hasWordCI ["purge".data, "temizle".data, "clear".data] p
  if isPurge then processPurgeCommand userPrompt
  else if isCreate then
    let channelName := ((wordSepQuoted "name".data p).map chToStr).getD "new-channel"
    let channelType := if hasWordCI ["voice".data, "ses".data] p
      then "GUILD_VOICE" else "GUILD_TEXT"
    { steps := [
        { tool := "discord.request", action := "channel.create", content := none,
          params := [("name", JsVal.vstr channelName), ("type", JsVal.vstr channelType)],
          id := "s1" },
        { tool := "discord.request", action := "message.create",
          content := some ("✅ \"" ++ channelName ++ "\" kanalı oluşturuldu."),
          params := [], id := "s2" }],
      strategy := "sequential", requiresApproval := false }
  else if isDelete then
    let channelId? := (firstChannelMention p).map chToStr
    { steps := [
        { tool := "discord.request", action := "channel.delete", content := none,
          params := [("channelId", match channelId? with
            | some cid => JsVal.vstr cid
            | none => JsVal.vnull)], id := "s1" },
        { tool := "discord.request", action := "message.create",
          content := some "✅ Kanal silindi.", params := [], id := "s2" }],
      strategy := "sequential", requiresApproval := true }
  else
    { steps := [
        { tool := "discord.request", action := "message.create",
          content := some "❓ Kanal komutu için lütfen create veya delete belirtin.",
          params := [], id := "s1" }],
      strategy := "sequential", requiresApproval := false }

/-- `_processNicknameCommand` (lines 429-468). -/
def processNicknameCommand (userPrompt : String) : FbPlan :=
  let p := userPrompt.data
  let userId := ((firstMention p).map chToStr).getD "USER_ID_REQUIRED"
  let nickname := match firstQuoted p with
    | some q => chToStr q
    | none => ((toTokenExtract p).map chToStr).getD "New Nickname"
  { steps := [
      { tool := "discord.request", action := "member.setNickname", content := none,
        params := [("userId", JsVal.vstr userId), ("nickname", JsVal.vstr nickname),
                   ("reason", JsVal.vstr "Changed via bot command")], id := "s1" },
      { tool := "discord.request", action := "message.create",
        content := some ("✅ <@" ++ userId ++ ">" ++ chToStr [squote] ++
          "in takma adı \"" ++ nickname ++ "\" olarak değiştirildi."),
        params := [], id := "s2" }],
    strategy := "sequential", requiresApproval := false }

/-- `_generateFallbackResponse` (llmService.js lines 356-421): keyword
dispatch over the lowercased prompt, in source order; unmatched input
yields the single-step explanatory plan. -/
def generateFallbackResponse (userPrompt : String) : FbPlan :=
  let lc := userPrompt.data.map Char.toLower
  if containsSeq "write".data lc || containsSeq "send".data lc ||
      containsSeq "yaz".data lc then
    processWriteCommand userPrompt
  else if containsSeq "timeout".data lc || containsSeq "mute".data lc ||
      containsSeq "sustur".data lc then
    processTimeoutCommand userPrompt
  else if containsSeq "purge".data lc || containsSeq "clear".data lc ||
      containsSeq "delete".data lc || containsSeq "sil".data lc ||
      containsSeq "temizle".data lc then
    processPurgeCommand userPrompt
  else if containsSeq "ban".data lc || containsSeq "yasak".data lc then
    processBanCommand userPrompt
  else if containsSeq "kick".data lc || containsSeq "at".data lc then
    processKickCommand userPrompt
  else if containsSeq "role".data lc || containsSeq "rol".data lc then
    processRoleCommand userPrompt
  else if containsSeq "channel".data lc || containsSeq "kanal".data lc then
    processChannelCommand userPrompt
  else if containsSeq "nickname".data lc || containsSeq "nick".data lc ||
      containsSeq "isim".data lc then
    processNicknameCommand userPrompt
  else if containsSeq "repeat".data lc || containsSeq "tekrarla".data lc then
    processRepeatCommand userPrompt
  else
    { steps := [
        { tool := "discord.request", action := "message.create",
          content := some ("API şu anda kullanılamıyor. Komutunuzu işlemek için daha " ++
            "açık ifadeler kullanın veya Ollama servisinin çalıştığından emin olun."),
          params := [], id := "s1" }],
      strategy := "sequential", requiresApproval := false }

/-- Claim C6, original form, refuted: for the unquoted input
`send hello 3 times`, the fallback synthesizer's step contents are the
default text `Merhaba!` — not `hello` (the content regex only extracts
quoted text). -/
theorem fallback_send_hello_counterexample :
    ¬ ((generateFallbackResponse "send hello 3 times").steps.map FbStep.content =
        [some "hello", some "hello", some "hello"]) ∧
    (generateFallbackResponse "send hello 3 times").steps.map FbStep.content =
      [some "Merhaba!", some "Merhaba!", some "Merhaba!"] := by
  constructor
  · decide
  · decide

/-- Claim C6 (amended): the input `send hello 3 times` yields a fallback
plan with exactly 3 steps, strategy `sequential`, every step's action
`message.create` — but every step's content is the default `Merhaba!`,
since the message text is not quoted. -/
theorem fallback_send_hello_plan :
    (generateFallbackResponse "send hello 3 times").steps.length = 3 ∧
    (generateFallbackResponse "send hello 3 times").strategy = "sequential" ∧
    (generateFallbackResponse "send hello 3 times").steps.map
        (fun st => (st.action, st.content)) =
      [("message.create", some "Merhaba!"), ("message.create", some "Merhaba!"),
       ("message.create", some "Merhaba!")] := by
  refine ⟨by decide, by decide, by decide⟩

/-! ## ResponseGenerator retry loop (src/ai/llmService.js, generateResponse)

One backend attempt is abstracted to its observable outcome: a rejection
(network error, timeout, non-2xx status, malformed body) or a resolved
response with its extracted message content; empty content is treated as
a failure by line 145.  `this.retryDelay` is instance state: it is the
`retryDelay` argument threaded through and returned, and it is doubled
after each wait (line 173) and never reset. -/

inductive ApiAttempt where
  | fail (msg : String)
  | respond (content : String)

/-- Whether an attempt completes the `while` loop. -/
def attemptOk : ApiAttempt → Bool
  | ApiAttempt.fail _ => false
  | ApiAttempt.respond c => !(c = "")

def contentOf : ApiAttempt → String
  | ApiAttempt.fail _ => ""
  | ApiAttempt.respond c => c

inductive JsError where
  | referenceError (name : String)
  | genError (msg : String)
  deriving DecidableEq

/-- The observable outcome of one `generateResponse` call: the settled
or thrown result, the number of backend calls issued, the waits (in ms,
in order) performed between attempts, and the final value of the
mutated `this.retryDelay`. -/
structure GenResult where
  result : Except JsError String
  calls : Nat
  delays : List Nat
  finalRetryDelay : Nat

/-- The retry loop of `generateResponse` (llmService.js lines 103-176)
followed by the failure path (lines 178-195).  `remaining` is
`retryAttempts - attemptCount`, making the recursion structural.

On a successful attempt the content is returned, `_fixJsonFormat`
applied when `fixJsonInResponse` is set (lines 149-163).  On a failed
attempt the loop waits `retryDelay` ms and doubles it, but only when
another attempt remains (lines 171-174).

When every attempt has failed, the code after the loop runs the
misplaced debug statements of lines 180-188; line 183
(`console.log("Ollama response received, status:", response.status)`)
reads `response`, which is scoped to the `try` block of the loop body
and is not in scope there, so a `ReferenceError` is thrown.  The
fallback check of lines 190-193 and the `GenerationError` throw of
line 195 are therefore unreachable, whatever `useFallbackOnError`
holds. -/
def genLoop (oracle : Nat → ApiAttempt) (fixFlag : Bool) :
    Nat → Nat → Nat → GenResult
  | 0, _, retryDelay =>
    { result := Except.error (JsError.referenceError "response"),
      calls := 0, delays := [], finalRetryDelay := retryDelay }
  | remaining + 1, attemptCount, retryDelay =>
    if attemptOk (oracle attemptCount) then
      { result := Except.ok (if fixFlag
          then fixJsonFormat (contentOf (oracle attemptCount))
          else contentOf (oracle attemptCount)),
        calls := 1, delays := [], finalRetryDelay := retryDelay }
    else
      match remaining with
      | 0 =>
        { result := Except.error (JsError.referenceError "response"),
          calls := 1, delays := [], finalRetryDelay := retryDelay }
      | r + 1 =>
        let res := genLoop oracle fixFlag (r + 1) (attemptCount + 1) (retryDelay * 2)
        { result := res.result, calls := res.calls + 1,
          delays := retryDelay :: res.delays,
          finalRetryDelay := res.finalRetryDelay }

/-- `generateResponse` for a configured attempt ceiling
`retryAttempts` (default 3) and current `this.retryDelay` state
(1000 at construction). -/
def generateResponse (oracle : Nat → ApiAttempt) (fixFlag : Bool)
    (retryAttempts retryDelay : Nat) : GenResult :=
  genLoop oracle fixFlag retryAttempts 0 retryDelay

/-- The delay sequence produced by doubling: `d, 2d, 4d, ...` (`k`
terms). -/
def geomDelays (d : Nat) : Nat → List Nat
  | 0 => []
  | k + 1 => d :: geomDelays (d * 2) k

/-- When every attempt in the window fails, the loop issues all
`m` calls, waits `m - 1` times with doubling delays, and ends in the
`ReferenceError` of the misplaced debug line. -/
theorem genLoop_allfail (oracle : Nat → ApiAttempt) (fixFlag : Bool) :
    ∀ (m a d : Nat), 1 ≤ m →
      (∀ j, a ≤ j → j < a + m → attemptOk (oracle j) = false) →
      genLoop oracle fixFlag m a d =
        { result := Except.error (JsError.referenceError "response"),
          calls := m, delays := geomDelays d (m - 1),
          finalRetryDelay := d * 2 ^ (m - 1) } := by
  intro m
  induction m with
  | zero => intro a d h; exact absurd h (by decide)
  | succ m ih =>
    intro a d _ hfail
    have hf : attemptOk (oracle a) = false := hfail a le_rfl (by omega)
    cases m with
    | zero =>
      rw [genLoop.eq_def]
      simp [hf, geomDelays]
    | succ m' =>
      have ih' := ih (a + 1) (d * 2) (by omega)
        (fun j hj1 hj2 => hfail j (by omega) (by omega))
      rw [genLoop.eq_def]
      simp only [hf, Bool.false_eq_true, if_false, ih', Nat.add_sub_cancel]
      simp only [GenResult.mk.injEq, true_and]
      refine ⟨rfl, ?_⟩
      rw [pow_succ]
      ring

/-- When the first success is attempt `a + k` (within the window), the
loop issues `k + 1` calls and waits `k` times with doubling delays. -/
theorem genLoop_success (oracle : Nat → ApiAttempt) (fixFlag : Bool) :
    ∀ (k m a d : Nat), k < m → attemptOk (oracle (a + k)) = true →
      (∀ j, a ≤ j → j < a + k → attemptOk (oracle j) = false) →
      genLoop oracle fixFlag m a d =
        { result := Except.ok (if fixFlag
            then fixJsonFormat (contentOf (oracle (a + k)))
            else contentOf (oracle (a + k))),
          calls := k + 1, delays := geomDelays d k,
          finalRetryDelay := d * 2 ^ k } := by
  intro k
  induction k with
  | zero =>
    intro m a d hk hok _
    cases m with
    | zero => omega
    | succ m' =>
      simp only [Nat.add_zero] at hok
      rw [genLoop.eq_def]
      simp [hok, geomDelays]
  | succ k ih =>
    intro m a d hk hok hfail
    have hf : attemptOk (oracle a) = false := hfail a le_rfl (by omega)
    cases m with
    | zero => omega
    | succ m₁ =>
      cases m₁ with
      | zero => omega
      | succ m₂ =>
        have harg : a + 1 + k = a + (k + 1) := by omega
        have ih' := ih (m₂ + 1) (a + 1) (d * 2) (by omega)
          (by rw [harg]; exact hok)
          (fun j hj1 hj2 => hfail j (by omega) (by omega))
        rw [harg] at ih'
        rw [genLoop.eq_def]
        simp only [hf, Bool.false_eq_true, if_false, ih']
        simp only [GenResult.mk.injEq, true_and]
        refine ⟨?_, ?_⟩
        · simp [geomDelays]
        · rw [pow_succ]
          ring

/-- Whatever the attempt outcomes, the waits are `d, 2d, 4d, ...` and
the final `this.retryDelay` is the base delay times `2 ^ (number of
waits)`. -/
theorem genLoop_geom (oracle : Nat → ApiAttempt) (fixFlag : Bool) :
    ∀ (m a d : Nat), ∃ kw,
      (genLoop oracle fixFlag m a d).delays = geomDelays d kw ∧
      (genLoop oracle fixFlag m a d).finalRetryDelay = d * 2 ^ kw := by
  intro m
  induction m with
  | zero =>
    intro a d
    exact ⟨0, by rw [genLoop.eq_def]; simp [geomDelays], by rw [genLoop.eq_def]; simp⟩
  | succ m ih =>
    intro a d
    by_cases hok : attemptOk (oracle a) = true
    · exact ⟨0, by rw [genLoop.eq_def]; simp [hok, geomDelays],
        by rw [genLoop.eq_def]; simp [hok]⟩
    · have hf : attemptOk (oracle a) = false := by
        cases h : attemptOk (oracle a) with
        | true => exact absurd h hok
        | false => rfl
      cases m with
      | zero =>
        exact ⟨0, by rw [genLoop.eq_def]; simp [hf, geomDelays],
          by rw [genLoop.eq_def]; simp [hf]⟩
      | succ m' =>
        obtain ⟨kw, hd, hfin⟩ := ih (a + 1) (d * 2)
        refine ⟨kw + 1, ?_, ?_⟩
        · rw [genLoop.eq_def]
          simp only [hf, Bool.false_eq_true, if_false]
          simp [hd, geomDelays]
        · rw [genLoop.eq_def]
          simp only [hf, Bool.false_eq_true, if_false]
          simp [hfin, pow_succ]
          ring

theorem geomDelays_head (d kw x : Nat)
    (h : (geomDelays d kw).head? = some x) : x = d := by
  cases kw with
  | zero => simp [geomDelays] at h
  | succ k => simp [geomDelays] at h; omega

/-- Appending to a doubling run keeps the non-decreasing chain, as long
as the tail starts no lower than the run's final doubled value. -/
theorem chain_geom_append :
    ∀ (k d : Nat) (rest : List Nat), List.Chain' (· ≤ ·) rest →
      (∀ y, rest.head? = some y → d * 2 ^ k ≤ y) →
      List.Chain' (· ≤ ·) (geomDelays d k ++ rest) := by
  intro k
  induction k with
  | zero => intro d rest hrest _; simpa [geomDelays] using hrest
  | succ k ih =>
    intro d rest hrest hlink
    have htail : List.Chain' (· ≤ ·) (geomDelays (d * 2) k ++ rest) :=
      ih (d * 2) rest hrest (fun y hy => by
        have := hlink y hy
        calc d * 2 * 2 ^ k = d * 2 ^ (k + 1) := by rw [pow_succ]; ring
        _ ≤ y := this)
    rw [geomDelays, List.cons_append]
    rw [List.chain'_cons']
    refine ⟨?_, htail⟩
    intro y hy
    cases k with
    | zero =>
      simp only [geomDelays, List.nil_append] at hy
      have hle := hlink y hy
      have h2 : d * 2 ^ (0 + 1) = d * 2 := by norm_num
      rw [h2] at hle
      omega
    | succ k' =>
      simp only [geomDelays, List.cons_append, List.head?_cons, Option.mem_def,
        Option.some.injEq] at hy
      omega

/-- Claim C1 (evidence for the code bug): when every configured attempt
fails, `generateResponse` neither returns the fallback synthesizer's
plan nor a `GenerationError`: it throws the `ReferenceError` raised by
the misplaced debug line that reads the try-scoped `response` variable,
and it issues exactly the `N` backend calls of the loop — whatever
`useFallbackOnError` holds, since the fallback check is unreachable. -/
theorem generateResponse_allfail_reference_error
    (oracle : Nat → ApiAttempt) (fixFlag : Bool) (N d0 : Nat)
    (hN : 1 ≤ N) (hfail : ∀ j, j < N → attemptOk (oracle j) = false) :
    (generateResponse oracle fixFlag N d0).result =
      Except.error (JsError.referenceError "response") ∧
    (generateResponse oracle fixFlag N d0).calls = N := by
  have h := genLoop_allfail oracle fixFlag N 0 d0 hN
    (fun j _ hj2 => hfail j (by omega))
  unfold generateResponse
  rw [h]
  exact ⟨rfl, rfl⟩

/-- Witness for C1: with the default 3 attempts and base delay 1000 ms,
an unreachable backend makes `generateResponse` end in the
`ReferenceError`. -/
theorem generateResponse_allfail_witness :
    (1 ≤ 3 ∧
      (generateResponse (fun _ => ApiAttempt.fail "connect ECONNREFUSED") true 3 1000).result =
        Except.error (JsError.referenceError "response")) ∧
    (generateResponse (fun _ => ApiAttempt.fail "connect ECONNREFUSED") true 3 1000).calls = 3 :=
  ⟨⟨by decide,
    (generateResponse_allfail_reference_error
      (fun _ => ApiAttempt.fail "connect ECONNREFUSED") true 3 1000
      (by decide) (fun j _ => rfl)).1⟩,
   (generateResponse_allfail_reference_error
      (fun _ => ApiAttempt.fail "connect ECONNREFUSED") true 3 1000
      (by decide) (fun j _ => rfl)).2⟩

/-- Claim C8: `generateResponse` issues exactly
`min(N, attempts-to-success)` backend calls (all `N` when no attempt
succeeds); the waits form the doubling sequence starting at the current
base delay (`retryDelay`, 1000 ms at construction and never reset), so
they are non-decreasing within one invocation and across two
consecutive invocations sharing the mutated `this.retryDelay` state. -/
theorem generateResponse_retry_backoff
    (oracle oracle2 : Nat → ApiAttempt) (fixFlag fixFlag2 : Bool) (N d0 : Nat) :
    (∀ i0, i0 < N → attemptOk (oracle i0) = true →
        (∀ j, j < i0 → attemptOk (oracle j) = false) →
        (generateResponse oracle fixFlag N d0).calls = min N (i0 + 1) ∧
        (generateResponse oracle fixFlag N d0).delays = geomDelays d0 i0) ∧
    (1 ≤ N → (∀ j, j < N → attemptOk (oracle j) = false) →
        (generateResponse oracle fixFlag N d0).calls = N ∧
        (generateResponse oracle fixFlag N d0).delays = geomDelays d0 (N - 1)) ∧
    (∀ x, (generateResponse oracle fixFlag N d0).delays.head? = some x → x = d0) ∧
    List.Chain' (· ≤ ·)
      ((generateResponse oracle fixFlag N d0).delays ++
        (generateResponse oracle2 fixFlag2 N
          (generateResponse oracle fixFlag N d0).finalRetryDelay).delays) := by
  refine ⟨?_, ?_, ?_, ?_⟩
  · intro i0 hi0 hok hfirst
    have h := genLoop_success oracle fixFlag i0 N 0 d0 hi0
      (by simpa using hok) (fun j _ hj2 => hfirst j (by omega))
    unfold generateResponse
    rw [h]
    refine ⟨?_, rfl⟩
    have hmin : min N (i0 + 1) = i0 + 1 := Nat.min_eq_right (by omega)
    rw [hmin]
  · intro hN hfail
    have h := genLoop_allfail oracle fixFlag N 0 d0 hN
      (fun j _ hj2 => hfail j (by omega))
    unfold generateResponse
    rw [h]
    exact ⟨rfl, rfl⟩
  · intro x hx
    obtain ⟨kw, hd, _⟩ := genLoop_geom oracle fixFlag N 0 d0
    unfold generateResponse at hx
    rw [hd] at hx
    exact geomDelays_head d0 kw x hx
  · obtain ⟨k1, hd1, hf1⟩ := genLoop_geom oracle fixFlag N 0 d0
    obtain ⟨k2, hd2, _⟩ := genLoop_geom oracle2 fixFlag2 N 0
      ((genLoop oracle fixFlag N 0 d0).finalRetryDelay)
    unfold generateResponse
    rw [hd1, hd2, hf1]
    apply chain_geom_append
    · have := chain_geom_append k2 (d0 * 2 ^ k1) [] List.chain'_nil (by intro y hy; cases hy)
      simpa using this
    · intro y hy
      have := geomDelays_head (d0 * 2 ^ k1) k2 y hy
      omega

/-- Witness for the amended C2 at a concrete two-step plan: one
succeeding step, then a critical step failing with an executor result,
giving a failed record with 3 (= k + 1 for k = 2) results, while the
parallel strategy gives one result per step. -/
theorem seq_critical_fail_witness :
    (∃ rec : WorkflowRecord,
      (executeWorkflow
          (fun st => if st.id = "s1" then ExecOutcome.ret true none
                     else ExecOutcome.ret false (some "boom")) "wf"
          (some ⟨some [⟨"s1", "discord.request", some "message.create", false⟩,
                       ⟨"s2", "discord.request", some "member.ban", true⟩],
                 some "sequential", true⟩) []).2 =
        ("wf", rec) :: [] ∧
      rec.status = WfStatus.failed ∧
      rec.results.length = (1 + 1) + 1) ∧
    (executeWorkflow
        (fun st => if st.id = "s1" then ExecOutcome.ret true none
                   else ExecOutcome.ret false (some "boom")) "wf"
        (some ⟨some [⟨"s1", "discord.request", some "message.create", false⟩,
                     ⟨"s2", "discord.request", some "member.ban", true⟩],
               some "parallel", true⟩) []).2 =
      ("wf", ⟨"wf", WfStatus.completed,
        executeParallel
          (fun st => if st.id = "s1" then ExecOutcome.ret true none
                     else ExecOutcome.ret false (some "boom"))
          [⟨"s1", "discord.request", some "message.create", false⟩,
           ⟨"s2", "discord.request", some "member.ban", true⟩]⟩) :: [] ∧
    (executeParallel
        (fun st => if st.id = "s1" then ExecOutcome.ret true none
                   else ExecOutcome.ret false (some "boom"))
        [⟨"s1", "discord.request", some "message.create", false⟩,
         ⟨"s2", "discord.request", some "member.ban", true⟩]).length =
      [⟨"s1", "discord.request", some "message.create", false⟩,
       (⟨"s2", "discord.request", some "member.ban", true⟩ : WfStep)].length :=
  seq_critical_fail_k_plus_one
    (fun st => if st.id = "s1" then ExecOutcome.ret true none
               else ExecOutcome.ret false (some "boom"))
    "wf" [] [⟨"s1", "discord.request", some "message.create", false⟩]
    [] ⟨"s2", "discord.request", some "member.ban", true⟩ (some "boom") true
    (by intro t ht
        simp only [List.mem_singleton] at ht
        subst ht
        exact ⟨none, by decide⟩)
    (by decide) rfl

/-- Witness for C8 at concrete oracles: the first invocation fails once
then succeeds (2 = min(3, 2) calls, one 1000 ms wait), and a following
all-failing invocation continues the non-decreasing delay chain. -/
theorem generateResponse_backoff_witness :
    (generateResponse (fun i => if i = 0 then ApiAttempt.fail "timeout"
        else ApiAttempt.respond "ok") false 3 1000).calls = min 3 (1 + 1) ∧
    (generateResponse (fun i => if i = 0 then ApiAttempt.fail "timeout"
        else ApiAttempt.respond "ok") false 3 1000).delays = geomDelays 1000 1 ∧
    List.Chain' (· ≤ ·)
      ((generateResponse (fun i => if i = 0 then ApiAttempt.fail "timeout"
          else ApiAttempt.respond "ok") false 3 1000).delays ++
        (generateResponse (fun _ => ApiAttempt.fail "timeout") false 3
          ((generateResponse (fun i => if i = 0 then ApiAttempt.fail "timeout"
              else ApiAttempt.respond "ok") false 3 1000).finalRetryDelay)).delays) := by
  have h := generateResponse_retry_backoff
    (fun i => if i = 0 then ApiAttempt.fail "timeout" else ApiAttempt.respond "ok")
    (fun _ => ApiAttempt.fail "timeout") false false 3 1000
  have h1 := h.1 1 (by decide) (by decide) (by decide)
  exact ⟨h1.1, h1.2, h.2.2.2⟩

/-! ## ActionResolver (src/core/dynamicHandler.js)

The fuzzy matcher computes a dynamic-programming matrix
(`_levenshteinDistance`, lines 256-286).  To show it computes the true
Levenshtein distance, the textbook recursive definition `lev` is the
reference; the DP is proved equal to it. -/

/-- Textbook Levenshtein distance (unit costs, with substitution). -/
def lev : List Char → List Char → Nat
  | [], b => b.length
  | _ :: a, [] => a.length + 1
  | x :: a, y :: b =>
    if x = y then lev a b
    else 1 + min (lev a b) (min (lev (x :: a) b) (lev a (y :: b)))
termination_by a b => a.length + b.length
decreasing_by
  all_goals simp only [List.length_cons]
  all_goals omega

theorem lev_nil_left (b : List Char) : lev [] b = b.length := by
  rw [lev.eq_def]

theorem lev_cons_nil (x : Char) (a : List Char) : lev (x :: a) [] = a.length + 1 := by
  rw [lev.eq_def]

theorem lev_nil_right : ∀ a : List Char, lev a [] = a.length
  | [] => by rw [lev.eq_def]
  | x :: a => by rw [lev.eq_def]; rfl

theorem lev_cons_cons (x y : Char) (a b : List Char) :
    lev (x :: a) (y :: b) =
      if x = y then lev a b
      else 1 + min (lev a b) (min (lev (x :: a) b) (lev a (y :: b))) := by
  rw [lev.eq_def]

set_option maxHeartbeats 1000000 in
/-- The last-character recurrence of the Levenshtein distance: the same
three-way minimum holds when a character is appended to each string.
This is the bridge between the prefix-indexed dynamic-programming matrix
of `_levenshteinDistance` and the first-character recursion `lev`. -/
theorem lev_snoc (x y : Char) :
    ∀ (a b : List Char), lev (a ++ [x]) (b ++ [y]) =
      if x = y then lev a b
      else 1 + min (lev a b) (min (lev (a ++ [x]) b) (lev a (b ++ [y]))) := by
  intro a
  induction a with
  | nil =>
    intro b
    induction b with
    | nil =>
      rcases eq_or_ne x y with hxy | hxy
      · subst hxy
        simp [lev_nil_left, lev_cons_nil, lev_cons_cons]
      · simp [lev_nil_left, lev_cons_nil, lev_cons_cons, hxy]
    | cons z b' ihb =>
      simp only [List.nil_append] at ihb ⊢
      rcases eq_or_ne x z with hxz | hxz
      · subst hxz
        rcases eq_or_ne x y with hxy | hxy
        · subst hxy
          simp only [List.cons_append, List.nil_append, lev_cons_cons, lev_nil_left,
            lev_cons_nil, ihb, List.length_append, List.length_cons, List.length_nil,
            eq_self_iff_true, if_true]
          try omega
        · simp only [List.cons_append, List.nil_append, lev_cons_cons, lev_nil_left,
            lev_cons_nil, ihb, List.length_append, List.length_cons, List.length_nil,
            eq_self_iff_true, if_true, if_neg hxy]
          try omega
      · rcases eq_or_ne x y with hxy | hxy
        · subst hxy
          simp only [List.cons_append, List.nil_append, lev_cons_cons, lev_nil_left,
            lev_cons_nil, ihb, List.length_append, List.length_cons, List.length_nil,
            eq_self_iff_true, if_true, if_neg hxz]
          try omega
        · simp only [List.cons_append, List.nil_append, lev_cons_cons, lev_nil_left,
            lev_cons_nil, ihb, List.length_append, List.length_cons, List.length_nil,
            if_neg hxz, if_neg hxy]
          try omega
  | cons w a' iha =>
    intro b
    induction b with
    | nil =>
      have ihA := iha []
      simp only [List.nil_append] at ihA ⊢
      rcases eq_or_ne w y with hwy | hwy
      · subst hwy
        rcases eq_or_ne x w with hxw | hxw
        · subst hxw
          simp only [List.cons_append, List.nil_append, lev_cons_cons, lev_nil_right,
            lev_nil_left, lev_cons_nil, ihA, List.length_append, List.length_cons,
            List.length_nil, eq_self_iff_true, if_true]
          try omega
        · simp only [List.cons_append, List.nil_append, lev_cons_cons, lev_nil_right,
            lev_nil_left, lev_cons_nil, ihA, List.length_append, List.length_cons,
            List.length_nil, eq_self_iff_true, if_true, if_neg hxw]
          try omega
      · rcases eq_or_ne x y with hxy | hxy
        · subst hxy
          simp only [List.cons_append, List.nil_append, lev_cons_cons, lev_nil_right,
            lev_nil_left, lev_cons_nil, ihA, List.length_append, List.length_cons,
            List.length_nil, eq_self_iff_true, if_true, if_neg hwy]
          try omega
        · simp only [List.cons_append, List.nil_append, lev_cons_cons, lev_nil_right,
            lev_nil_left, lev_cons_nil, ihA, List.length_append, List.length_cons,
            List.length_nil, if_neg hwy, if_neg hxy]
          try omega
    | cons z b' ihb =>
      have ihA := iha b'
      have ihB := iha (z :: b')
      have ihC := ihb
      simp only [List.cons_append] at ihA ihB ihC ⊢
      rcases eq_or_ne w z with hwz | hwz
      · subst hwz
        rcases eq_or_ne x y with hxy | hxy
        · subst hxy
          simp only [lev_cons_cons, ihA, ihB, ihC, eq_self_iff_true, if_true]
          try omega
        · simp only [lev_cons_cons, ihA, ihB, ihC, eq_self_iff_true, if_true,
            if_neg hxy]
          try omega
      · rcases eq_or_ne x y with hxy | hxy
        · subst hxy
          simp only [lev_cons_cons, ihA, ihB, ihC, eq_self_iff_true, if_true,
            if_neg hwz]
          try omega
        · simp only [lev_cons_cons, ihA, ihB, ihC, if_neg hwz, if_neg hxy]
          try generalize lev a' b' = p
          try generalize lev (a' ++ [x]) b' = q
          try generalize lev a' (b' ++ [y]) = r
          try generalize lev (w :: a') b' = s
          try generalize lev (w :: a') (b' ++ [y]) = t
          try generalize lev (w :: (a' ++ [x])) b' = q2
          try generalize lev a' (z :: b') = u
          try generalize lev a' (z :: (b' ++ [y])) = v
          try generalize lev (a' ++ [x]) (z :: b') = r2
          simp only [← min_add_add_left]
          ac_rfl

/-- The Levenshtein distance is invariant under reversing both
strings. -/
theorem lev_rev : ∀ (a b : List Char), lev a.reverse b.reverse = lev a b := by
  intro a
  induction a with
  | nil =>
    intro b
    simp [lev_nil_left]
  | cons w a' iha =>
    intro b
    induction b with
    | nil =>
      simp [lev_nil_right]
    | cons z b' ihb =>
      have h1 := iha b'
      have h2 := iha (z :: b')
      have h3 := ihb
      rw [List.reverse_cons, List.reverse_cons, lev_snoc, lev_cons_cons]
      rw [← List.reverse_cons w a', ← List.reverse_cons z b']
      rw [h1, h2, h3]

/-- `lev` on the reversed strings; the prefix-indexed DP matrix entries
are exactly these values. -/
def revLev (ap bp : List Char) : Nat :=
  lev ap.reverse bp.reverse

theorem revLev_nil_right (ap : List Char) : revLev ap [] = ap.length := by
  simp [revLev, lev_nil_right]

theorem revLev_nil_left (bp : List Char) : revLev [] bp = bp.length := by
  simp [revLev, lev_nil_left]

theorem revLev_snoc (ap bp : List Char) (x y : Char) :
    revLev (ap ++ [x]) (bp ++ [y]) =
      if x = y then revLev ap bp
      else 1 + min (revLev ap bp) (min (revLev (ap ++ [x]) bp) (revLev ap (bp ++ [y]))) := by
  unfold revLev
  rw [List.reverse_append, List.reverse_append]
  simp only [List.reverse_singleton, List.singleton_append]
  rw [lev_cons_cons]

/-- The inner loop of `_levenshteinDistance` (lines 271-283): fill one
row cell by cell.  `bc` is `b.charAt(i-1)`, `a` the remaining
characters `a.charAt(j-1)...`, `diag` is `matrix[i-1][j-1]`, `left` is
`matrix[i][j-1]`, and the remaining previous-row cells
`matrix[i-1][j...]` are consumed in lockstep. -/
def rowFill (bc : Char) : List Char → Nat → Nat → List Nat → List Nat
  | [], _, _, _ => []
  | _ :: _, _, _, [] => []
  | ac :: a', diag, left, up :: rest =>
    let cur := if bc = ac then diag else min (diag + 1) (min (left + 1) (up + 1))
    cur :: rowFill bc a' up cur rest

/-- One outer-loop iteration: `matrix[i] = [i]` seeds the row
(`matrix[i][0] = matrix[i-1][0] + 1`), then the row is filled. -/
def nextRow (bc : Char) (a : List Char) (prev : List Nat) : List Nat :=
  match prev with
  | [] => []
  | p0 :: rest => (p0 + 1) :: rowFill bc a p0 (p0 + 1) rest

/-- The matrix of `_levenshteinDistance` reduced to its last row: the
initial row `matrix[0][j] = j`, then one `nextRow` per character of
`b`. -/
def levRows (a b : List Char) : List Nat :=
  b.foldl (fun prev bc => nextRow bc a prev) (List.range (a.length + 1))

/-- `_levenshteinDistance(a, b)` (dynamicHandler.js lines 256-286): the
two early returns, then `matrix[b.length][a.length]`. -/
def levenshteinDistance (a b : List Char) : Nat :=
  if a.length = 0 then b.length
  else if b.length = 0 then a.length
  else (levRows a b).getD a.length 0

/-- The intended contents of a DP row past column `ap.length`: entry
for each extension of the prefix `ap` along `a`. -/
def specRow (bp : List Char) : List Char → List Char → List Nat
  | _, [] => []
  | ap, ac :: a' => revLev (ap ++ [ac]) bp :: specRow bp (ap ++ [ac]) a'

theorem rowFill_spec (bc : Char) :
    ∀ (a ap bp : List Char),
      rowFill bc a (revLev ap bp) (revLev ap (bp ++ [bc])) (specRow bp ap a) =
        specRow (bp ++ [bc]) ap a := by
  intro a
  induction a with
  | nil => intro ap bp; rfl
  | cons ac a' ih =>
    intro ap bp
    show rowFill bc (ac :: a') (revLev ap bp) (revLev ap (bp ++ [bc]))
        (revLev (ap ++ [ac]) bp :: specRow bp (ap ++ [ac]) a') = _
    rw [rowFill]
    have hcur : (if bc = ac then revLev ap bp
        else min (revLev ap bp + 1)
          (min (revLev ap (bp ++ [bc]) + 1) (revLev (ap ++ [ac]) bp + 1))) =
        revLev (ap ++ [ac]) (bp ++ [bc]) := by
      rw [revLev_snoc]
      rcases eq_or_ne ac bc with h | h
      · subst h
        simp
      · rw [if_neg h, if_neg (Ne.symm h)]
        omega
    simp only [hcur]
    rw [ih (ap ++ [ac]) bp]
    rfl

theorem nextRow_spec (bc : Char) (a bp : List Char) :
    nextRow bc a (revLev [] bp :: specRow bp [] a) =
      revLev [] (bp ++ [bc]) :: specRow (bp ++ [bc]) [] a := by
  have hlen : revLev [] (bp ++ [bc]) = revLev [] bp + 1 := by
    rw [revLev_nil_left, revLev_nil_left, List.length_append]
    rfl
  show (revLev [] bp + 1) :: rowFill bc a (revLev [] bp) (revLev [] bp + 1) (specRow bp [] a) = _
  rw [← hlen, rowFill_spec]

theorem foldRows_spec (a : List Char) :
    ∀ (b bp : List Char),
      List.foldl (fun prev bc => nextRow bc a prev)
          (revLev [] bp :: specRow bp [] a) b =
        revLev [] (bp ++ b) :: specRow (bp ++ b) [] a := by
  intro b
  induction b with
  | nil => intro bp; simp
  | cons bc b' ih =>
    intro bp
    rw [List.foldl_cons, nextRow_spec, ih (bp ++ [bc])]
    simp

theorem initRow_spec (a : List Char) :
    ∀ ap, specRow [] ap a = List.range' (ap.length + 1) a.length := by
  induction a with
  | nil => intro ap; rfl
  | cons ac a' ih =>
    intro ap
    show revLev (ap ++ [ac]) [] :: specRow [] (ap ++ [ac]) a' = _
    rw [revLev_nil_right, ih (ap ++ [ac])]
    simp [List.range'_succ, List.length_append]

theorem range_eq_revLev_row (a : List Char) :
    List.range (a.length + 1) = revLev [] [] :: specRow [] [] a := by
  rw [initRow_spec a [], revLev_nil_left]
  rw [List.range_eq_range']
  simp [List.range'_succ]

theorem specRow_getD :
    ∀ (a ap bp : List Char),
      (revLev ap bp :: specRow bp ap a).getD a.length 0 = revLev (ap ++ a) bp := by
  intro a
  induction a with
  | nil => intro ap bp; simp
  | cons ac a' ih =>
    intro ap bp
    show (revLev ap bp :: revLev (ap ++ [ac]) bp :: specRow bp (ap ++ [ac]) a').getD
        (a'.length + 1) 0 = _
    rw [List.getD_cons_succ]
    rw [ih (ap ++ [ac]) bp]
    simp

/-- The DP of `_levenshteinDistance` computes the true Levenshtein
distance. -/
theorem levenshteinDistance_correct (a b : List Char) :
    levenshteinDistance a b = lev a b := by
  unfold levenshteinDistance
  rcases ha : a with _ | ⟨x, a'⟩
  · simp [lev_nil_left]
  · rcases hb : b with _ | ⟨y, b'⟩
    · simp [lev_nil_right]
    · have hrows : levRows (x :: a') (y :: b') =
          revLev [] (y :: b') :: specRow (y :: b') [] (x :: a') := by
        unfold levRows
        rw [range_eq_revLev_row]
        have := foldRows_spec (x :: a') (y :: b') []
        simpa using this
      simp only [List.length_cons, if_neg (Nat.succ_ne_zero a'.length),
        if_neg (Nat.succ_ne_zero b'.length)]
      rw [hrows]
      have hg := specRow_getD (x :: a') [] (y :: b')
      simp only [List.length_cons, List.nil_append] at hg
      rw [hg]
      show revLev (x :: a') (y :: b') = _
      unfold revLev
      exact lev_rev (x :: a') (y :: b')

/-- The canonical capability table of the DynamicHandler
(`actionMappings`, dynamicHandler.js lines 20-46), in insertion order
(`Object.keys` order for string keys). -/
def actionMappingsKeys : List String :=
  ["message.create", "message.edit", "message.delete", "message.react",
   "message.pin", "message.unpin",
   "channel.create", "channel.delete", "channel.purge", "channel.lock",
   "channel.unlock",
   "member.timeout", "member.kick", "member.ban", "member.unban",
   "member.setNickname",
   "role.add", "role.remove"]

/-- The alias table (`actionAliases`, dynamicHandler.js lines 49-77). -/
def actionAliases : List (String × String) :=
  [("member.edit", "member.setNickname"),
   ("member.update", "member.setNickname"),
   ("member.nickname", "member.setNickname"),
   ("member.nick", "member.setNickname"),
   ("member.rename", "member.setNickname"),
   ("member.changenick", "member.setNickname"),
   ("member.modifyNickname", "member.setNickname"),
   ("member.mute", "member.timeout"),
   ("member.silence", "member.timeout"),
   ("message.send", "message.create"),
   ("message.write", "message.create"),
   ("message.post", "message.create"),
   ("channel.clean", "channel.purge"),
   ("channel.clear", "channel.purge"),
   ("message.purge", "channel.purge"),
   ("message.clear", "channel.purge"),
   ("role.give", "role.add"),
   ("role.assign", "role.add"),
   ("role.revoke", "role.remove"),
   ("role.take", "role.remove")]

/-- `String.prototype.toLowerCase` (ASCII; the identifiers involved are
ASCII). -/
def jsToLower (s : String) : String :=
  String.mk (s.data.map Char.toLower)

/-- `_calculateSimilarity` (lines 244-248), using the DP distance.  The
exact rational `(maxLength - distance) / maxLength` is written as an
integer fraction, which `calculateSimilarity_eq_div` identifies with
the cast-and-divide form. -/
def calculateSimilarity (s1 s2 : String) : ℚ :=
  let distance := levenshteinDistance s1.data s2.data
  let maxLength := max s1.length s2.length
  if maxLength = 0 then 1
  else Rat.divInt ((maxLength : ℤ) - (distance : ℤ)) (maxLength : ℤ)

/-- The same similarity with the reference Levenshtein distance; by
`levenshteinDistance_correct` the two agree. -/
def specSimilarity (s1 s2 : String) : ℚ :=
  let distance := lev s1.data s2.data
  let maxLength := max s1.length s2.length
  if maxLength = 0 then 1 else ((maxLength : ℚ) - distance) / maxLength

/-- The similarity threshold, the literal `0.6` of lines 213 and 231,
written as an integer fraction; `threshold06_eq` identifies it with the
decimal literal. -/
def threshold06 : ℚ := Rat.divInt 6 10

theorem threshold06_eq : threshold06 = 0.6 := by
  norm_num [threshold06, Rat.divInt_eq_div]

/-- The best-match loop of `_findSimilarAction` (lines 203-209 and
222-228): `bestMatch`/`bestScore` start as `null`/`0` and are replaced
on strictly greater scores. -/
def pickBest (f : String → ℚ) : List String → Option String → ℚ → Option String × ℚ
  | [], bm, bs => (bm, bs)
  | c :: cs, bm, bs =>
    if f c > bs then pickBest f cs (some c) (f c) else pickBest f cs bm bs

/-- `_findSimilarAction` (lines 181-236), parameterized by the scoring
function: lowercase the identifier; when it has a dot, try the
candidates sharing its category prefix (threshold 0.6, fall back to the
first same-category action); otherwise, or when no candidate shares the
prefix, try the full canonical set (threshold 0.6, fall back to no
match). -/
def findSimilarWith (f : String → String → ℚ) (invalidAction : String) : Option String :=
  let normalizedInvalid := jsToLower invalidAction
  if normalizedInvalid.data.contains '.' then
    let category := String.mk (normalizedInvalid.data.takeWhile (· ≠ '.'))
    let sameCategory := actionMappingsKeys.filter
      (fun action => (category ++ ".").data.isPrefixOf action.data)
    if sameCategory.isEmpty then
      let best := pickBest (fun action => f normalizedInvalid (jsToLower action))
        actionMappingsKeys none 0
      if best.2 ≥ threshold06 then best.1 else none
    else
      let best := pickBest (fun action => f normalizedInvalid (jsToLower action))
        sameCategory none 0
      if best.2 ≥ threshold06 then best.1 else sameCategory.head?
  else
    let best := pickBest (fun action => f normalizedInvalid (jsToLower action))
      actionMappingsKeys none 0
    if best.2 ≥ threshold06 then best.1 else none

def findSimilarAction (invalidAction : String) : Option String :=
  findSimilarWith calculateSimilarity invalidAction

/-- From the specification's words: the highest-scoring candidate is
the first candidate whose score is at least every candidate's score. -/
def firstMaxBy (f : String → ℚ) (cands : List String) : Option String :=
  cands.find? (fun c => cands.all (fun c' => f c' ≤ f c))

/-- The resolver of the specification, parameterized by the scoring
function: compare against the same-category set when the identifier has
a recognizable category shared by some canonical identifier, otherwise
against the full set; accept the highest-scoring candidate at score
≥ 0.6, otherwise fall back to the first same-category member or to no
match. -/
def specFindSimilarWith (f : String → String → ℚ) (raw : String) : Option String :=
  let norm := jsToLower raw
  let score := fun action => f norm (jsToLower action)
  if norm.data.contains '.' then
    let category := String.mk (norm.data.takeWhile (· ≠ '.'))
    let sameCategory := actionMappingsKeys.filter
      (fun action => (category ++ ".").data.isPrefixOf action.data)
    if sameCategory.isEmpty then
      match firstMaxBy score actionMappingsKeys with
      | some c => if score c ≥ threshold06 then some c else none
      | none => none
    else
      match firstMaxBy score sameCategory with
      | some c => if score c ≥ threshold06 then some c else sameCategory.head?
      | none => sameCategory.head?
  else
    match firstMaxBy score actionMappingsKeys with
    | some c => if score c ≥ threshold06 then some c else none
    | none => none

/-- The specification's fuzzy matcher, with the true Levenshtein
similarity. -/
def specFindSimilar (raw : String) : Option String :=
  specFindSimilarWith specSimilarity raw
theorem listFindCongr {p q : String → Bool} :
    ∀ (l : List String), (∀ x ∈ l, p x = q x) → l.find? p = l.find? q := by
  intro l
  induction l with
  | nil => intro _; rfl
  | cons c cs ih =>
    intro h
    rw [List.find?_cons, List.find?_cons, h c (List.mem_cons_self c cs),
      ih (fun x hx => h x (List.mem_cons_of_mem c hx))]

theorem pickBest_eq_find (f : String → ℚ) :
    ∀ (cands : List String) (bm : Option String) (bs : ℚ),
      pickBest f cands bm bs =
        (match cands.find? (fun c => bs < f c && cands.all (fun c' => f c' ≤ f c)) with
         | some m => (some m, f m)
         | none => (bm, bs)) := by
  intro cands
  induction cands with
  | nil => intro bm bs; rfl
  | cons c cs ih =>
    intro bm bs
    by_cases hfc : bs < f c
    · rw [pickBest, if_pos hfc, ih (some c) (f c)]
      by_cases hdom : ∀ d ∈ cs, f d ≤ f c
      · have h1 : cs.find? (fun x => f c < f x && cs.all (fun c' => f c' ≤ f x)) = none := by
          apply List.find?_eq_none.mpr
          intro d hd
          simp only [Bool.and_eq_true, decide_eq_true_eq, not_and]
          intro hlt
          exact absurd hlt (not_lt.mpr (hdom d hd))
        have h2 : (c :: cs).find?
            (fun x => bs < f x && (c :: cs).all (fun c' => f c' ≤ f x)) = some c := by
          apply List.find?_cons_of_pos
          simp only [Bool.and_eq_true, decide_eq_true_eq, List.all_cons,
            List.all_eq_true, decide_eq_true_eq]
          exact ⟨hfc, le_refl _, fun c' hc' => hdom c' hc'⟩
        rw [h1, h2]
      · push_neg at hdom
        obtain ⟨d, hd, hlt⟩ := hdom
        have h2 : (c :: cs).find?
            (fun x => bs < f x && (c :: cs).all (fun c' => f c' ≤ f x)) =
            cs.find? (fun x => bs < f x && (c :: cs).all (fun c' => f c' ≤ f x)) := by
          apply List.find?_cons_of_neg
          intro hcontra
          simp only [Bool.and_eq_true, decide_eq_true_eq, List.all_cons,
            List.all_eq_true, decide_eq_true_eq] at hcontra
          exact absurd (hcontra.2.2 d hd) (not_le.mpr hlt)
        rw [h2]
        have h3 : cs.find? (fun x => bs < f x && (c :: cs).all (fun c' => f c' ≤ f x)) =
            cs.find? (fun x => f c < f x && cs.all (fun c' => f c' ≤ f x)) := by
          apply listFindCongr
          intro x hx
          cases hall : cs.all (fun c' => decide (f c' ≤ f x)) with
          | false =>
            simp only [List.all_cons, hall, Bool.and_false, Bool.false_eq_true]
          | true =>
            have hdx : f d ≤ f x := by
              have := List.all_eq_true.mp hall d hd
              exact of_decide_eq_true this
            have hcx : f c < f x := lt_of_lt_of_le hlt hdx
            have hbx : bs < f x := lt_trans hfc hcx
            simp only [List.all_cons, hall, Bool.and_true, decide_eq_true hbx,
              decide_eq_true hcx, decide_eq_true (le_of_lt hcx), Bool.true_and]
        rw [h3]
        have hcs_ne : cs ≠ [] := List.ne_nil_of_mem hd
        obtain ⟨m, hm⟩ : ∃ m, m ∈ cs.argmax f := by
          cases hmx : cs.argmax f with
          | none => exact absurd (List.argmax_eq_none.mp hmx) hcs_ne
          | some m => exact ⟨m, rfl⟩
        have hmax : ∀ a ∈ cs, f a ≤ f m := fun a ha => List.le_of_mem_argmax ha hm
        have hpred : (decide (f c < f m) && cs.all fun c' => decide (f c' ≤ f m)) = true := by
          simp only [Bool.and_eq_true, decide_eq_true_eq, List.all_eq_true,
            decide_eq_true_eq]
          exact ⟨lt_of_lt_of_le hlt (hmax d hd), fun c' hc' => hmax c' hc'⟩
        obtain ⟨y, hy⟩ : ∃ y, List.find?
            (fun x => decide (f c < f x) && cs.all fun c' => decide (f c' ≤ f x)) cs =
              some y := by
          cases hfind : List.find?
              (fun x => decide (f c < f x) && cs.all fun c' => decide (f c' ≤ f x)) cs with
          | none =>
            exact absurd hpred (List.find?_eq_none.mp hfind m (List.argmax_mem hm))
          | some y => exact ⟨y, rfl⟩
        rw [hy]
    · rw [pickBest, if_neg hfc, ih bm bs]
      have hcle : f c ≤ bs := not_lt.mp hfc
      have h2 : (c :: cs).find?
          (fun x => bs < f x && (c :: cs).all (fun c' => f c' ≤ f x)) =
          cs.find? (fun x => bs < f x && (c :: cs).all (fun c' => f c' ≤ f x)) := by
        apply List.find?_cons_of_neg
        intro hcontra
        simp only [Bool.and_eq_true, decide_eq_true_eq] at hcontra
        exact absurd hcontra.1 hfc
      rw [h2]
      have h3 : cs.find? (fun x => bs < f x && (c :: cs).all (fun c' => f c' ≤ f x)) =
          cs.find? (fun x => bs < f x && cs.all (fun c' => f c' ≤ f x)) := by
        apply listFindCongr
        intro x hx
        cases hall : cs.all (fun c' => decide (f c' ≤ f x)) with
        | false =>
          simp only [List.all_cons, hall, Bool.and_false, Bool.false_eq_true]
        | true =>
          by_cases hbx : bs < f x
          · have hcx : f c ≤ f x := le_trans hcle (le_of_lt hbx)
            simp only [List.all_cons, hall, Bool.and_true, decide_eq_true hbx,
              decide_eq_true hcx, Bool.true_and]
          · simp only [List.all_cons, hall, Bool.and_true,
              decide_eq_false hbx, Bool.false_and]
      rw [h3]

theorem firstMaxBy_isSome (f : String → ℚ) (cands : List String) (hne : cands ≠ []) :
    ∃ c0, firstMaxBy f cands = some c0 := by
  obtain ⟨m, hm⟩ : ∃ m, m ∈ cands.argmax f := by
    cases hmx : cands.argmax f with
    | none => exact absurd (List.argmax_eq_none.mp hmx) hne
    | some m => exact ⟨m, rfl⟩
  have hmax : ∀ a ∈ cands, f a ≤ f m := fun a ha => List.le_of_mem_argmax ha hm
  have hpred : (cands.all fun c' => decide (f c' ≤ f m)) = true := by
    simp only [List.all_eq_true, decide_eq_true_eq]
    exact hmax
  unfold firstMaxBy
  cases hfind : cands.find? (fun c => cands.all fun c' => decide (f c' ≤ f c)) with
  | none => exact absurd hpred (List.find?_eq_none.mp hfind m (List.argmax_mem hm))
  | some c0 => exact ⟨c0, rfl⟩

theorem firstMaxBy_mem_max (f : String → ℚ) (cands : List String) (c0 : String)
    (h : firstMaxBy f cands = some c0) :
    c0 ∈ cands ∧ ∀ x ∈ cands, f x ≤ f c0 := by
  refine ⟨List.mem_of_find?_eq_some h, ?_⟩
  have := List.find?_some h
  simp only [List.all_eq_true, decide_eq_true_eq] at this
  exact this

theorem pickBranch_eq (f : String → ℚ) (cands : List String) (fallback : Option String) :
    (if (pickBest f cands none 0).2 ≥ threshold06 then (pickBest f cands none 0).1 else fallback) =
      (match firstMaxBy f cands with
       | some c => if f c ≥ threshold06 then some c else fallback
       | none => fallback) := by
  rcases hc : cands with _ | ⟨c, cs⟩
  · have : firstMaxBy f [] = none := rfl
    rw [this]
    show (if (0 : ℚ) ≥ threshold06 then (none : Option String) else fallback) = fallback
    rw [if_neg (by rw [threshold06_eq]; norm_num)]
  · obtain ⟨c0, hc0⟩ := firstMaxBy_isSome f (c :: cs) (by simp)
    obtain ⟨hmem, hmax⟩ := firstMaxBy_mem_max f _ c0 hc0
    rw [pickBest_eq_find f (c :: cs) none 0]
    by_cases hpos : 0 < f c0
    · have hfind : (c :: cs).find?
          (fun x => 0 < f x && (c :: cs).all (fun c' => f c' ≤ f x)) =
          firstMaxBy f (c :: cs) := by
        unfold firstMaxBy
        apply listFindCongr
        intro x hx
        cases hall : (c :: cs).all (fun c' => decide (f c' ≤ f x)) with
        | false => simp [hall]
        | true =>
          have hx0 : f c0 ≤ f x := by
            have := List.all_eq_true.mp hall c0 hmem
            exact of_decide_eq_true this
          have h0x : 0 < f x := lt_of_lt_of_le hpos hx0
          simp [hall, h0x]
      rw [hfind, hc0]
    · have hfind : (c :: cs).find?
          (fun x => 0 < f x && (c :: cs).all (fun c' => f c' ≤ f x)) = none := by
        apply List.find?_eq_none.mpr
        intro x hx hcontra
        simp only [Bool.and_eq_true, decide_eq_true_eq, List.all_eq_true,
          decide_eq_true_eq] at hcontra
        exact hpos (lt_of_lt_of_le hcontra.1 (hmax x hx))
      rw [hfind, hc0]
      show _ = if f c0 ≥ threshold06 then some c0 else fallback
      rw [if_neg (show ¬ f c0 ≥ threshold06 from fun hge =>
          absurd (lt_of_lt_of_le
            (by rw [threshold06_eq]; norm_num : (0 : ℚ) < threshold06) hge) hpos)]
      show (if (0 : ℚ) ≥ threshold06 then (none : Option String) else fallback) = fallback
      rw [if_neg (by rw [threshold06_eq]; norm_num)]

theorem findSimilarWith_eq (f : String → String → ℚ) (raw : String) :
    findSimilarWith f raw = specFindSimilarWith f raw := by
  unfold findSimilarWith specFindSimilarWith
  simp only []
  by_cases hdot : (jsToLower raw).data.contains '.' = true
  · rw [if_pos hdot, if_pos hdot]
    by_cases hempty : (actionMappingsKeys.filter
        (fun action => (String.mk ((jsToLower raw).data.takeWhile (· ≠ '.')) ++ ".").data.isPrefixOf
          action.data)).isEmpty = true
    · rw [if_pos hempty, if_pos hempty]
      exact pickBranch_eq _ _ _
    · rw [if_neg hempty, if_neg hempty]
      exact pickBranch_eq _ _ _
  · rw [if_neg hdot, if_neg hdot]
    exact pickBranch_eq _ _ _

/-- Claim C5: for every raw identifier (with no exact or alias match,
handled before the fuzzy step), `_findSimilarAction` behaves exactly as
the specification describes, with `editDistance` the true Levenshtein
distance: normalized similarity `(maxLen - d) / maxLen` against the
same-category canonical identifiers (or the full set when none shares
the category prefix), accepting the highest-scoring candidate at
score ≥ 0.6, else the first same-category member, else no match. -/
theorem findSimilarAction_spec (raw : String) :
    findSimilarAction raw = specFindSimilar raw := by
  unfold findSimilarAction specFindSimilar
  have hsim : calculateSimilarity = specSimilarity := by
    funext s1 s2
    unfold calculateSimilarity specSimilarity
    simp only []
    rw [levenshteinDistance_correct]
    rcases Nat.eq_zero_or_pos (max s1.length s2.length) with h | h
    · rw [if_pos h, if_pos h]
    · rw [if_neg (Nat.pos_iff_ne_zero.mp h), if_neg (Nat.pos_iff_ne_zero.mp h),
        Rat.divInt_eq_div]
      push_cast
      ring
  rw [hsim]
  exact findSimilarWith_eq specSimilarity raw

/-- How `executeAction` found its handler (dynamicHandler.js lines
118-161): a direct `actionMappings` hit, the alias table, the fuzzy
matcher, or the dynamic-extension fallback. -/
inductive ResolveSource where
  | direct
  | viaAlias
  | viaFuzzy
  | viaDynamic
  deriving DecidableEq

/-- Lookup in the `actionAliases` object (a JS property access, which
compares the key literally). -/
def lookupAlias (key : String) : Option String :=
  (actionAliases.find? (fun p => p.1 = key)).map Prod.snd

/-- The fuzzy branch of the cascade (lines 139-161): a similar action
with a registered handler is used; otherwise a dynamic extension is
created. -/
def resolveFuzzy (raw : String) : Option String × ResolveSource :=
  match findSimilarAction raw with
  | some sim =>
    if actionMappingsKeys.contains sim then (some sim, ResolveSource.viaFuzzy)
    else (none, ResolveSource.viaDynamic)
  | none => (none, ResolveSource.viaDynamic)

/-- The handler-lookup cascade of `executeAction` (dynamicHandler.js
lines 118-161): direct `actionMappings` hit, then the alias table keyed
by `params.action.toLowerCase()`, then `_findSimilarAction`, then the
dynamic-extension fallback.  A handler is identified by its mapping
key; the message command patterns of lines 111-116 are assumed
unmatched (they bypass the cascade entirely when they fire). -/
def resolveAction (raw : String) : Option String × ResolveSource :=
  if actionMappingsKeys.contains raw then
    (some raw, ResolveSource.direct)
  else
    match lookupAlias (jsToLower raw) with
    | some canon =>
      if actionMappingsKeys.contains canon then
        (some canon, ResolveSource.viaAlias)
      else
        resolveFuzzy raw
    | none => resolveFuzzy raw

set_option maxRecDepth 100000 in
/-- Claim C4, original form, refuted at a concrete input: the alias
table entry (member.modifyNickname, member.setNickname) is never
resolved through the alias path, because `executeAction` lower-cases
the lookup key while the stored key is mixed-case; the identifier
instead falls through to the fuzzy matcher, which happens to pick the
same canonical action but with source = fuzzy. -/
theorem alias_resolution_counterexample :
    ("member.modifyNickname", "member.setNickname") ∈ actionAliases ∧
    resolveAction "member.modifyNickname" =
      (some "member.setNickname", ResolveSource.viaFuzzy) := by
  constructor
  · decide
  · decide

/-- Claim C4 (amended): every alias-table entry whose key is unchanged
by the lower-casing of the lookup — all twenty entries except
member.modifyNickname — resolves to its canonical action through the
alias path. -/
theorem alias_resolution_amended :
    ∀ p ∈ actionAliases, p.1 ≠ "member.modifyNickname" →
      resolveAction p.1 = (some p.2, ResolveSource.viaAlias) := by
  decide

theorem alias_resolution_witness :
    ("member.mute", "member.timeout") ∈ actionAliases ∧
    resolveAction "member.mute" =
      (some "member.timeout", ResolveSource.viaAlias) :=
  ⟨by decide,
    alias_resolution_amended ("member.mute", "member.timeout")
      (by decide) (by decide)⟩
